import Mathlib

/-!
# A pluggable-allocator dynamic array (`src/main.cpp`)

Shallow embedding of the two allocators (`MyAllocator`, `my_alocator`) and of
the growable container `MyContainer`, followed by theorems about them.

Modelling conventions.

* A `T*` is a `Ptr`: the identifier of the system block it points into and an
  element offset inside that block.  Block `0` is reserved for `nullptr`.
  Every `::operator new` returns a block identifier never used before.
* Raw memory is `World.mem`: for each slot, the value of the live object
  stored there, or `none` when the slot holds no live object (raw or already
  destructed memory).
* Element constructions and destructions, allocator requests and system
  allocation calls are recorded, in program order, in `World.trace`; this is
  the instrumented element type of the specification.
* `std::size_t` arithmetic on the container's counters wraps modulo `2 ^ 64`.
* A thrown `std::bad_alloc` is the `Except.error` component of a result; the
  state components returned next to it are the state the code leaves behind.
  `::operator new` itself is assumed never to fail.
* `std::copy` is element-wise assignment: it writes slots and records no
  event.
* Block sizes are counted in elements.  `sizeof(T)` is `ElemSize.bytes T`.
  The byte count `ChunkSize * sizeof(T)` of a pool chunk is computed in
  `std::size_t` and wraps, see `arenaSlots`; the byte count `n * sizeof(T)` of
  a simple-allocator request (`n <= 100`) is assumed representable.
-/

namespace Lab4

/-! ## Memory model -/

/-- A typed pointer: system block identifier and element offset inside it. -/
structure Ptr where
  blk : Nat
  off : Nat
deriving DecidableEq, Repr

/-- The null pointer; block `0` is never returned by the system heap. -/
def nullptr : Ptr := ⟨0, 0⟩

/-- Pointer arithmetic `p + n`. -/
def Ptr.add (p : Ptr) (n : Nat) : Ptr := ⟨p.blk, p.off + n⟩

/-- Relational comparison `p > q` of two pointers into the same block. -/
def Ptr.gt (p q : Ptr) : Bool := decide (q.off < p.off)

/-- Observable events of a run, in program order. -/
inductive Event where
  /-- a placement-new of an element at a slot -/
  | construct (p : Ptr)
  /-- an explicit element destructor call on a slot -/
  | destruct (p : Ptr)
  /-- a call of the allocator's `allocate(n)` -/
  | allocate (n : Nat)
  /-- a call of the allocator's `deallocate(p, n)` -/
  | deallocate (p : Ptr) (n : Nat)
  /-- a call of `::operator new` returning block `blk` of `n` element slots -/
  | sysNew (blk : Nat) (n : Nat)
  /-- a call of `::operator delete` on block `blk` -/
  | sysDelete (blk : Nat)
deriving DecidableEq, Repr

/-- The exceptions the code throws. -/
inductive Exn where
  | bad_alloc
deriving DecidableEq, Repr

/-- Everything outside the objects themselves: slot contents, the number of
system blocks handed out so far, and the event trace. -/
structure World (T : Type) where
  mem : Ptr → Option T
  nblocks : Nat
  trace : List Event

/-- The world before anything ran. -/
def World.fresh {T : Type} : World T := ⟨fun _ => none, 0, []⟩

/-- Number of values of `std::size_t`. -/
def SIZE_MOD : Nat := 18446744073709551616

/-- Record one event. -/
def World.log {T : Type} (w : World T) (e : Event) : World T :=
  { w with trace := w.trace ++ [e] }

/-- Write a slot. -/
def World.store {T : Type} (w : World T) (p : Ptr) (x : Option T) : World T :=
  { w with mem := fun q => if q = p then x else w.mem q }

/-- Placement-new `new (p) T(value)`. -/
def World.construct {T : Type} (w : World T) (p : Ptr) (value : T) : World T :=
  (w.store p (some value)).log (Event.construct p)

/-- Placement-new `new (p) T(std::move(*src))`: the new object takes the
value held by the source slot. -/
def World.moveConstruct {T : Type} (w : World T) (p src : Ptr) : World T :=
  (w.store p (w.mem src)).log (Event.construct p)

/-- Explicit destructor call `p->~T()`. -/
def World.destroy {T : Type} (w : World T) (p : Ptr) : World T :=
  (w.store p none).log (Event.destruct p)

/-- The loop `for (i = 0; i < n; ++i) p[i].~T();`. -/
def World.destroyRange {T : Type} (w : World T) (p : Ptr) (n : Nat) : World T :=
  (List.range n).foldl (fun w i => w.destroy (p.add i)) w

/-- The call `::operator new(n * sizeof(T))`: a fresh block of `n` slots. -/
def World.sysNew {T : Type} (w : World T) (n : Nat) : Ptr × World T :=
  (⟨w.nblocks + 1, 0⟩,
    { w with nblocks := w.nblocks + 1,
             trace := w.trace ++ [Event.sysNew (w.nblocks + 1) n] })

/-- The call `::operator delete(p)`: the block is gone, and with it whatever
its slots held. -/
def World.sysDelete {T : Type} (w : World T) (p : Ptr) : World T :=
  { w with mem := fun q => if q.blk = p.blk then none else w.mem q,
           trace := w.trace ++ [Event.sysDelete p.blk] }

/-- Whether an event is an element construction. -/
def Event.isConstruct : Event → Bool
  | Event.construct _ => true
  | _ => false

/-- Whether an event is an element destructor call. -/
def Event.isDestruct : Event → Bool
  | Event.destruct _ => true
  | _ => false

/-- Whether an event is a call of `::operator new`. -/
def Event.isSysNew : Event → Bool
  | Event.sysNew _ _ => true
  | _ => false

/-- Number of element constructions recorded so far. -/
def World.constructs {T : Type} (w : World T) : Nat :=
  w.trace.countP Event.isConstruct

/-- Number of element destructor calls recorded so far. -/
def World.destructs {T : Type} (w : World T) : Nat :=
  w.trace.countP Event.isDestruct

/-- Number of `::operator new` calls recorded so far. -/
def World.sysNews {T : Type} (w : World T) : Nat :=
  w.trace.countP Event.isSysNew

/-! ## `MyAllocator<T, ChunkSize>`: the pool allocator -/

/-- The size in bytes of an element type, `sizeof(T)`, which is never 0. -/
class ElemSize (T : Type) where
  bytes : Nat
  pos : 0 < bytes

/-- The element type `int` of `main`, taken to be four bytes wide. -/
instance : ElemSize Int := ⟨4, by decide⟩

/-- Number of whole element slots in a pool chunk.  `expand_pool` computes
`size = ChunkSize * sizeof(T)` in `std::size_t`, asks `::operator new` for
`size` bytes and puts `pool_end` `size` bytes past `pool`.  A pointer
`pool + x` lies past `pool_end` exactly when `x * sizeof(T) > size`, that is
when `x > size / sizeof(T)`, so `pool_end` is the element offset
`size / sizeof(T)`. -/
def arenaSlots (T : Type) [ElemSize T] (ChunkSize : Nat) : Nat :=
  ((ChunkSize * ElemSize.bytes T) % SIZE_MOD) / ElemSize.bytes T

/-- The three data members of `MyAllocator`. -/
structure MyAllocator where
  pool : Ptr
  current : Ptr
  pool_end : Ptr
deriving DecidableEq, Repr

/-- The default constructor. -/
def MyAllocator.init : MyAllocator := ⟨nullptr, nullptr, nullptr⟩

/-- The private member `expand_pool`. -/
def MyAllocator.expand_pool {T : Type} [ElemSize T] (ChunkSize : Nat) (_a : MyAllocator)
    (w : World T) : MyAllocator × World T :=
  let r := w.sysNew (arenaSlots T ChunkSize)
  ({ pool := r.1, current := r.1, pool_end := r.1.add (arenaSlots T ChunkSize) }, r.2)

/-- The member `allocate(n)`. -/
def MyAllocator.allocate {T : Type} [ElemSize T] (ChunkSize : Nat) (a : MyAllocator)
    (w : World T) (n : Nat) : Except Exn Ptr × MyAllocator × World T :=
  let w := w.log (Event.allocate n)
  if n > ChunkSize then
    (Except.error Exn.bad_alloc, a, w)
  else
    let s := if a.pool = nullptr ∨ (a.current.add n).gt a.pool_end = true
      then MyAllocator.expand_pool ChunkSize a w else (a, w)
    (Except.ok s.1.current, { s.1 with current := s.1.current.add n }, s.2)

/-- The member `deallocate(p, n)`. -/
def MyAllocator.deallocate {T : Type} (a : MyAllocator) (w : World T)
    (p : Ptr) (n : Nat) : MyAllocator × World T :=
  (a, (w.log (Event.deallocate p n)).destroyRange p n)

/-- The member `deallocate_all()`. -/
def MyAllocator.deallocate_all {T : Type} (a : MyAllocator) (w : World T) :
    MyAllocator × World T :=
  if a.pool ≠ nullptr then
    ({ pool := nullptr, current := nullptr, pool_end := nullptr }, w.sysDelete a.pool)
  else (a, w)

/-! ## `my_alocator<T>`: the simple allocator -/

/-- The class `my_alocator` has no data members. -/
structure my_alocator where
deriving DecidableEq, Repr

/-- The member `allocate(n)`. -/
def my_alocator.allocate {T : Type} (a : my_alocator) (w : World T) (n : Nat) :
    Except Exn Ptr × my_alocator × World T :=
  let w := w.log (Event.allocate n)
  if n > 100 then
    (Except.error Exn.bad_alloc, a, w)
  else
    let r := w.sysNew n
    (Except.ok r.1, a, r.2)

/-- The member `deallocate(p, n)`. -/
def my_alocator.deallocate {T : Type} (a : my_alocator) (w : World T)
    (p : Ptr) (n : Nat) : my_alocator × World T :=
  (a, (w.log (Event.deallocate p n)).destroyRange p n)

/-! ## `MyContainer<T, Allocator>` -/

/-- What `MyContainer` uses of its `Allocator` template argument: default
construction, `allocate`, `deallocate`, and the destructor. -/
structure Allocator (T : Type) (σ : Type) where
  init : σ
  allocate : σ → World T → Nat → Except Exn Ptr × σ × World T
  deallocate : σ → World T → Ptr → Nat → σ × World T
  dtor : σ → World T → σ × World T

/-- The default template argument `my_alocator<T>`. -/
def simpleAlloc (T : Type) : Allocator T my_alocator where
  init := {}
  allocate := my_alocator.allocate
  deallocate := my_alocator.deallocate
  dtor := fun a w => (a, w)

/-- The template argument `MyAllocator<T, ChunkSize>`. -/
def poolAlloc (T : Type) [ElemSize T] (ChunkSize : Nat) : Allocator T MyAllocator where
  init := MyAllocator.init
  allocate := MyAllocator.allocate ChunkSize
  deallocate := MyAllocator.deallocate
  dtor := MyAllocator.deallocate_all

/-- The four data members of `MyContainer`. -/
structure MyContainer (σ : Type) where
  alloc : σ
  data : Ptr
  count : Nat
  capacity : Nat

namespace MyContainer

variable {T σ : Type}

/-- The default constructor. -/
def init (A : Allocator T σ) : MyContainer σ := ⟨A.init, nullptr, 0, 0⟩

/-- The member `size()`. -/
def size (c : MyContainer σ) : Nat := c.count

/-- The member `empty()`. -/
def empty (c : MyContainer σ) : Bool := c.count == 0

/-- The member `clear()`. -/
def clear (c : MyContainer σ) (w : World T) : MyContainer σ × World T :=
  ({ c with count := 0 }, w.destroyRange c.data c.count)

/-- The loop of `expand`: move-construct each element into the new block and
destruct its source. -/
def moveLoop (w : World T) (src dst : Ptr) (n : Nat) : World T :=
  (List.range n).foldl
    (fun w i => (w.moveConstruct (dst.add i) (src.add i)).destroy (src.add i)) w

/-- The value `capacity == 0 ? 1 : 2 * capacity` computed by `expand`. -/
def new_capacity (c : MyContainer σ) : Nat :=
  if c.capacity = 0 then 1 else (2 * c.capacity) % SIZE_MOD

/-- The private member `expand()`. -/
def expand (A : Allocator T σ) (c : MyContainer σ) (w : World T) :
    Except Exn Unit × MyContainer σ × World T :=
  match A.allocate c.alloc w c.new_capacity with
  | (Except.error e, a, w1) => (Except.error e, { c with alloc := a }, w1)
  | (Except.ok new_data, a, w1) =>
    let w2 := moveLoop w1 c.data new_data c.count
    let r := A.deallocate a w2 c.data c.capacity
    (Except.ok (),
      { alloc := r.1, data := new_data, count := c.count, capacity := c.new_capacity },
      r.2)

/-- The member `push_back(value)`. -/
def push_back (A : Allocator T σ) (c : MyContainer σ) (w : World T) (value : T) :
    Except Exn Unit × MyContainer σ × World T :=
  match (if c.count = c.capacity then expand A c w else (Except.ok (), c, w)) with
  | (Except.error e, c1, w1) => (Except.error e, c1, w1)
  | (Except.ok _, c1, w1) =>
    (Except.ok (),
      { c1 with count := (c1.count + 1) % SIZE_MOD },
      w1.construct (c1.data.add c1.count) value)

/-- The destructor `~MyContainer()`, followed by the destruction of the
member `alloc`. -/
def dtor (A : Allocator T σ) (c : MyContainer σ) (w : World T) :
    MyContainer σ × World T :=
  let r1 := c.clear w
  let r2 := A.deallocate r1.1.alloc r1.2 r1.1.data r1.1.capacity
  let r3 := A.dtor r2.1 r2.2
  ({ r1.1 with alloc := r3.1 }, r3.2)

/-- The member `begin()`. -/
def begin (c : MyContainer σ) : Ptr := c.data

/-- The member `end()`. -/
def end_ (c : MyContainer σ) : Ptr := c.data.add c.count

end MyContainer

/-- The driver loop `for (it = begin; it != last; ++it) yield *it`, with a
step budget: `none` when the budget runs out before `it` reaches `last`.
Dereferencing a slot yields its live value, or `none` if it holds none. -/
def iterLoop {T : Type} (w : World T) (last : Ptr) : Nat → Ptr → Option (List (Option T))
  | 0, _ => none
  | fuel + 1, it =>
    if it = last then some []
    else (iterLoop w last fuel (it.add 1)).map (fun l => w.mem it :: l)

/-- Iterate a container from `begin()` to `end()`. -/
def MyContainer.iterate {T σ : Type} (c : MyContainer σ) (w : World T) (fuel : Nat) :
    Option (List (Option T)) :=
  iterLoop w c.end_ fuel c.begin

/-- A run of `push_back` calls, stopping at the first one that throws. -/
def pushAll {T σ : Type} (A : Allocator T σ) (c : MyContainer σ) (w : World T) :
    List T → Except Exn Unit × MyContainer σ × World T
  | [] => (Except.ok (), c, w)
  | v :: vs =>
    match c.push_back A w v with
    | (Except.error e, c1, w1) => (Except.error e, c1, w1)
    | (Except.ok _, c1, w1) => pushAll A c1 w1 vs

/-- The public mutating operations of the container. -/
inductive Op (T : Type) where
  | push_back (value : T)
  | clear

/-- Apply one operation; a `push_back` that throws is caught by the caller,
which goes on with the container as the failed call left it. -/
def applyOp {T σ : Type} (A : Allocator T σ) (s : MyContainer σ × World T) :
    Op T → MyContainer σ × World T
  | Op.push_back v => (s.1.push_back A s.2 v).2
  | Op.clear => s.1.clear s.2

/-- Apply a sequence of operations, first to last. -/
def runOps {T σ : Type} (A : Allocator T σ) (s : MyContainer σ × World T)
    (ops : List (Op T)) : MyContainer σ × World T :=
  ops.foldl (applyOp A) s

/-- The driver loop of `main`, steps 6-7 and 8-9: a fresh container
filled by `for (int i = 0; i < 10; ++i) container.push_back(i);`. -/
def fillDigits {σ : Type} (A : Allocator Int σ) : Except Exn Unit × MyContainer σ × World Int :=
  pushAll A (MyContainer.init A) World.fresh [0, 1, 2, 3, 4, 5, 6, 7, 8, 9]

/-- The state reached from a freshly constructed default-allocator container
by a sequence of operations. -/
def reached {T : Type} (ops : List (Op T)) : MyContainer my_alocator × World T :=
  runOps (simpleAlloc T) (MyContainer.init (simpleAlloc T), World.fresh) ops

/-- A whole container lifetime with the default allocator: construction, a
sequence of operations, destruction.  Returns the final world. -/
def lifetime {T : Type} (ops : List (Op T)) : World T :=
  ((reached ops).1.dtor (simpleAlloc T) (reached ops).2).2

/-- A default-allocator container filled to capacity 64 by 64 pushes. -/
def simpleFull : Except Exn Unit × MyContainer my_alocator × World Int :=
  pushAll (simpleAlloc Int) (MyContainer.init (simpleAlloc Int)) World.fresh
    (List.replicate 64 0)

/-- A container backed by `MyAllocator<int, 10>` filled to capacity 8. -/
def poolFull : Except Exn Unit × MyContainer MyAllocator × World Int :=
  pushAll (poolAlloc Int 10) (MyContainer.init (poolAlloc Int 10)) World.fresh
    [0, 1, 2, 3, 4, 5, 6, 7]

/-- A default-allocator container after three pushes: length 3, capacity 4. -/
def simpleThree : Except Exn Unit × MyContainer my_alocator × World Int :=
  pushAll (simpleAlloc Int) (MyContainer.init (simpleAlloc Int)) World.fresh [1, 2, 3]

/-- A container backed by `MyAllocator<int, 10>` after two pushes: length 2,
capacity 2, storage at offset 1 of the arena, cursor at offset 3. -/
def poolTwo : Except Exn Unit × MyContainer MyAllocator × World Int :=
  pushAll (poolAlloc Int 10) (MyContainer.init (poolAlloc Int 10)) World.fresh [1, 2]

/-- The state reached from a freshly constructed container backed by
`MyAllocator<T, ChunkSize>` by a sequence of operations. -/
def reachedPool {T : Type} [ElemSize T] (ChunkSize : Nat) (ops : List (Op T)) :
    MyContainer MyAllocator × World T :=
  runOps (poolAlloc T ChunkSize) (MyContainer.init (poolAlloc T ChunkSize), World.fresh) ops

/-- Well-formed default-allocator container: the storage handle is null or
points into a system block that exists, and the capacity is one the doubling
policy can produce under the ceiling of 100. -/
structure WellFormed {T : Type} (c : MyContainer my_alocator) (w : World T) : Prop where
  count_le : c.count ≤ c.capacity
  cap_pow : c.capacity ∈ [0, 1, 2, 4, 8, 16, 32, 64]
  blk_le : c.data.blk ≤ w.nblocks

/-- Well-formed pool-backed container: the storage block and the cursor point
into system blocks that exist, and a storage block inside the current arena
lies below the cursor. -/
structure WellFormedPool {T : Type} (ChunkSize : Nat) (c : MyContainer MyAllocator)
    (w : World T) : Prop where
  count_le : c.count ≤ c.capacity
  cap_le : c.capacity ≤ ChunkSize
  blk_le : c.data.blk ≤ w.nblocks
  cur_le : c.alloc.current.blk ≤ w.nblocks
  below : c.data.blk = c.alloc.current.blk → c.data.off + c.capacity ≤ c.alloc.current.off

/-- A default-allocator container that holds exactly the values `l`: the
representation invariant carried along a run of `push_back` calls. -/
structure Holds {T : Type} (c : MyContainer my_alocator) (w : World T) (l : List T) :
    Prop where
  count_eq : c.count = l.length
  count_le : c.count ≤ c.capacity
  cap_pow : c.capacity ∈ [0, 1, 2, 4, 8, 16, 32, 64]
  blk_le : c.data.blk ≤ w.nblocks
  elems : ∀ i, i < l.length → w.mem (c.data.add i) = l[i]?

/-- The call `std::copy(src, src + n, dst)`: element-wise assignment, first to
last. -/
def World.copyRange {T : Type} (w : World T) (src dst : Ptr) (n : Nat) : World T :=
  (List.range n).foldl (fun w i => w.store (dst.add i) (w.mem (src.add i))) w

/-- The member `reallocate(p, old_size, new_size)` of `my_alocator`. -/
def my_alocator.reallocate {T : Type} (a : my_alocator) (w : World T) (p : Ptr)
    (old_size new_size : Nat) : Except Exn Ptr × my_alocator × World T :=
  if new_size > 100 then
    (Except.error Exn.bad_alloc, a, w)
  else
    match my_alocator.allocate a w new_size with
    | (Except.error e, a1, w1) => (Except.error e, a1, w1)
    | (Except.ok new_ptr, a1, w1) =>
      let elements_to_copy := min old_size new_size
      let w2 := w1.copyRange p new_ptr elements_to_copy
      let r := my_alocator.deallocate a1 w2 p old_size
      (Except.ok new_ptr, r.1, r.2)

/-- A block of five `int`s holding 10, 20, 30, 40, 50, obtained from the
simple allocator. -/
def fiveInts : World Int :=
  (((((((my_alocator.allocate {} (World.fresh : World Int) 5).2.2).construct ⟨1, 0⟩ 10).construct
    ⟨1, 1⟩ 20).construct ⟨1, 2⟩ 30).construct ⟨1, 3⟩ 40).construct ⟨1, 4⟩ 50)

/-- Whether an event is a call of `::operator delete`. -/
def Event.isSysDelete : Event → Bool
  | Event.sysDelete _ => true
  | _ => false

/-- Number of `::operator delete` calls recorded so far. -/
def World.sysDeletes {T : Type} (w : World T) : Nat :=
  w.trace.countP Event.isSysDelete

/-- Number of system blocks obtained and not given back. -/
def World.outstanding {T : Type} (w : World T) : Nat :=
  w.sysNews - w.sysDeletes

/-- The state of the simple allocator's client after `p = allocate(1)`
followed by `deallocate(p, 1)`, starting from nothing. -/
def allocThenDeallocate : World Int :=
  (my_alocator.deallocate {} (my_alocator.allocate {} (World.fresh : World Int) 1).2.2
    ⟨1, 0⟩ 1).2

/-- The public operations of the pool allocator. -/
inductive AOp where
  | allocate (n : Nat)
  | deallocate (p : Ptr) (n : Nat)
  | deallocate_all

/-- A pool allocator in use: its state, the world, and the blocks its
`allocate` has returned so far, oldest first, each with the slot count that
was requested. -/
structure PoolRun (T : Type) where
  alloc : MyAllocator
  world : World T
  blocks : List (Ptr × Nat)

/-- A freshly constructed pool allocator. -/
def PoolRun.fresh {T : Type} : PoolRun T := ⟨MyAllocator.init, World.fresh, []⟩

/-- Apply one allocator operation; a request that throws is caught by the
caller and returns no block. -/
def stepPool {T : Type} [ElemSize T] (ChunkSize : Nat) (s : PoolRun T) : AOp → PoolRun T
  | AOp.allocate n =>
    match MyAllocator.allocate ChunkSize s.alloc s.world n with
    | (Except.ok p, a, w) => ⟨a, w, s.blocks ++ [(p, n)]⟩
    | (Except.error _, a, w) => ⟨a, w, s.blocks⟩
  | AOp.deallocate p n =>
    ⟨(MyAllocator.deallocate s.alloc s.world p n).1,
      (MyAllocator.deallocate s.alloc s.world p n).2, s.blocks⟩
  | AOp.deallocate_all =>
    ⟨(MyAllocator.deallocate_all s.alloc s.world).1,
      (MyAllocator.deallocate_all s.alloc s.world).2, s.blocks⟩

/-- Apply a sequence of allocator operations, first to last. -/
def runPool {T : Type} [ElemSize T] (ChunkSize : Nat) (s : PoolRun T) (ops : List AOp) : PoolRun T :=
  ops.foldl (stepPool ChunkSize) s

/-- Two allocator runs agree on everything a later `allocate` depends on. -/
def PoolRun.Same {T : Type} (s t : PoolRun T) : Prop :=
  s.alloc = t.alloc ∧ s.world.nblocks = t.world.nblocks ∧ s.blocks = t.blocks

/-- The data-model invariant of the pool allocator: no arena is held and all
three pointers are null, or the cursor lies within the held arena, whose
limit is `ChunkSize` slots past its start. -/
def MyAllocator.Valid (ChunkSize : Nat) (a : MyAllocator) : Prop :=
  (a.pool = nullptr ∧ a.current = nullptr ∧ a.pool_end = nullptr) ∨
  (a.pool ≠ nullptr ∧ a.current.blk = a.pool.blk ∧ a.pool_end = a.pool.add ChunkSize ∧
    a.pool.off ≤ a.current.off ∧ a.current.off ≤ a.pool_end.off)

/-- What the container proofs use of an allocator with per-request ceiling
`L`.  `Safe a nb d cap` says that, with `nb` system blocks in existence, the
block `[d, d + cap)` has been handed out by the allocator now in state `a`, so
that no later request is served from its slots. -/
structure Ceiling {T σ : Type} (A : Allocator T σ) (L : Nat)
    (Safe : σ → Nat → Ptr → Nat → Prop) : Prop where
  init_safe : Safe A.init 0 nullptr 0
  dealloc : ∀ (a : σ) (w : World T) (p : Ptr) (n : Nat),
    A.deallocate a w p n = (a, (w.log (Event.deallocate p n)).destroyRange p n)
  reject : ∀ (a : σ) (w : World T) (n : Nat), L < n →
    A.allocate a w n = (Except.error Exn.bad_alloc, a, w.log (Event.allocate n))
  grant : ∀ (a : σ) (w : World T) (n : Nat) (d : Ptr) (cap : Nat), n ≤ L →
    Safe a w.nblocks d cap →
    ∃ p a2 w2, A.allocate a w n = (Except.ok p, a2, w2) ∧ w2.mem = w.mem ∧ p ≠ nullptr ∧
      Safe a2 w2.nblocks p n ∧ (d.blk ≠ p.blk ∨ d.off + cap ≤ p.off)

/-- A block handed out by the simple allocator: its system block exists. -/
def SafeSimple (_a : my_alocator) (nb : Nat) (d : Ptr) (_cap : Nat) : Prop :=
  d.blk ≤ nb

/-- A block handed out by the pool allocator: its system block and the
cursor's exist, the block lies below the cursor if it is in the cursor's
chunk, and a held arena is not block 0. -/
def SafePool (a : MyAllocator) (nb : Nat) (d : Ptr) (cap : Nat) : Prop :=
  d.blk ≤ nb ∧ a.current.blk ≤ nb ∧ (d.blk = a.current.blk → d.off + cap ≤ a.current.off) ∧
    (a.pool ≠ nullptr → 1 ≤ a.current.blk)

/-- The representation invariant of the container over an allocator with
ceiling `L`. -/
structure Shape {T σ : Type} (L : Nat) (Safe : σ → Nat → Ptr → Nat → Prop)
    (c : MyContainer σ) (w : World T) : Prop where
  count_le : c.count ≤ c.capacity
  cap_pow : c.capacity = 0 ∨ ∃ j, c.capacity = 2 ^ j
  cap_le : c.capacity ≤ L
  null_iff : c.data = nullptr ↔ c.capacity = 0
  safe : Safe c.alloc w.nblocks c.data c.capacity

/-- The state of a container that has received exactly the values `l`, by
`push_back` calls only. -/
structure Run {T σ : Type} (L : Nat) (Safe : σ → Nat → Ptr → Nat → Prop)
    (c : MyContainer σ) (w : World T) (l : List T) : Prop where
  shape : Shape L Safe c w
  count_eq : c.count = l.length
  tight : c.capacity < 2 * l.length ∨ (l.length = 0 ∧ c.capacity = 0)
  elems : ∀ i, i < l.length → w.mem (c.data.add i) = l[i]?

/-- The chunk capacity `2 ^ 62 + 1`: for `int` its byte count
`ChunkSize * sizeof(int)` is `2 ^ 64 + 4`, which wraps to 4 bytes, one slot. -/
def wrapChunk : Nat := 4611686018427387905

/-! ## Memory lemmas -/

theorem Ptr.add_zero (p : Ptr) : p.add 0 = p := rfl

theorem Ptr.add_add (p : Ptr) (m n : Nat) : (p.add m).add n = p.add (m + n) := by
  simp [Ptr.add, Nat.add_assoc]

theorem Ptr.add_ne_self (p : Ptr) (n : Nat) (h : 0 < n) : p ≠ p.add n := by
  intro e
  have h2 := congrArg Ptr.off e
  simp [Ptr.add] at h2
  omega

theorem Ptr.add_inj (p : Ptr) (m n : Nat) : p.add m = p.add n ↔ m = n := by
  simp [Ptr.add]

theorem Ptr.eq_iff (p q : Ptr) : p = q ↔ p.blk = q.blk ∧ p.off = q.off := by
  cases p; cases q; simp

theorem destroyRange_succ {T : Type} (w : World T) (p : Ptr) (n : Nat) :
    w.destroyRange p (n + 1) = (w.destroyRange p n).destroy (p.add n) := by
  simp [World.destroyRange, List.range_succ, List.foldl_append]

theorem destroyRange_nblocks {T : Type} (w : World T) (p : Ptr) (n : Nat) :
    (w.destroyRange p n).nblocks = w.nblocks := by
  induction n with
  | zero => rfl
  | succ n ih => rw [destroyRange_succ]; exact ih

theorem destroyRange_trace {T : Type} (w : World T) (p : Ptr) (n : Nat) :
    (w.destroyRange p n).trace
      = w.trace ++ (List.range n).map (fun i => Event.destruct (p.add i)) := by
  induction n with
  | zero => simp [World.destroyRange]
  | succ n ih =>
    rw [destroyRange_succ]
    simp [World.destroy, World.log, World.store, ih, List.range_succ]

theorem destroyRange_mem {T : Type} (w : World T) (p : Ptr) (n : Nat) (q : Ptr) :
    (w.destroyRange p n).mem q
      = if q.blk = p.blk ∧ p.off ≤ q.off ∧ q.off < p.off + n then none else w.mem q := by
  induction n with
  | zero =>
    have h : ¬ (q.blk = p.blk ∧ p.off ≤ q.off ∧ q.off < p.off + 0) := by omega
    simp only [World.destroyRange, List.range_zero, List.foldl_nil, if_neg h]
  | succ n ih =>
    rw [destroyRange_succ]
    simp only [World.destroy, World.log, World.store, ih, Ptr.eq_iff, Ptr.add]
    split_ifs <;> first | rfl | (exfalso; omega)

theorem moveLoop_succ {T : Type} (w : World T) (src dst : Ptr) (n : Nat) :
    MyContainer.moveLoop w src dst (n + 1)
      = ((MyContainer.moveLoop w src dst n).moveConstruct (dst.add n) (src.add n)).destroy
          (src.add n) := by
  simp [MyContainer.moveLoop, List.range_succ, List.foldl_append]

theorem moveLoop_nblocks {T : Type} (w : World T) (src dst : Ptr) (n : Nat) :
    (MyContainer.moveLoop w src dst n).nblocks = w.nblocks := by
  induction n with
  | zero => rfl
  | succ n ih => rw [moveLoop_succ]; exact ih

theorem moveStep_mem {T : Type} (w : World T) (d s q : Ptr) :
    ((w.moveConstruct d s).destroy s).mem q
      = if q = s then none else if q = d then w.mem s else w.mem q := rfl

/-- Slots outside both the source and the destination range are untouched. -/
theorem moveLoop_frame {T : Type} (w : World T) (src dst : Ptr) (n : Nat) (q : Ptr)
    (hs : ¬ (q.blk = src.blk ∧ src.off ≤ q.off ∧ q.off < src.off + n))
    (hd : ¬ (q.blk = dst.blk ∧ dst.off ≤ q.off ∧ q.off < dst.off + n)) :
    (MyContainer.moveLoop w src dst n).mem q = w.mem q := by
  induction n with
  | zero => rfl
  | succ n ih =>
    rw [moveLoop_succ, moveStep_mem]
    have h1 : q ≠ src.add n := by
      intro e; apply hs; rw [e]; simp [Ptr.add]
    have h2 : q ≠ dst.add n := by
      intro e; apply hd; rw [e]; simp [Ptr.add]
    rw [if_neg h1, if_neg h2]
    exact ih (by omega) (by omega)

/-- When the source range does not reach into the destination range, each
destination slot ends up holding what its source slot held. -/
theorem moveLoop_dst {T : Type} (w : World T) (src dst : Ptr) (n : Nat)
    (hd : src.blk ≠ dst.blk ∨ src.off + n ≤ dst.off) (i : Nat) (hi : i < n) :
    (MyContainer.moveLoop w src dst n).mem (dst.add i) = w.mem (src.add i) := by
  induction n with
  | zero => omega
  | succ n ih =>
    rw [moveLoop_succ, moveStep_mem]
    have h1 : dst.add i ≠ src.add n := by
      intro e
      have e1 := congrArg Ptr.blk e
      have e2 := congrArg Ptr.off e
      simp only [Ptr.add] at e1 e2
      omega
    rw [if_neg h1]
    by_cases h : i = n
    · subst h
      rw [if_pos rfl]
      apply moveLoop_frame
      · simp only [Ptr.add]; omega
      · simp only [Ptr.add]; omega
    · have h2 : dst.add i ≠ dst.add n := by
        rw [Ne, Ptr.add_inj]; exact h
      rw [if_neg h2]
      exact ih (by omega) (by omega)

/-- Iterating over `l.length` slots that hold the values of `l` yields `l`,
as soon as the step budget exceeds `l.length`. -/
theorem iterLoop_eq {T : Type} (w : World T) (l : List T) :
    ∀ (p : Ptr) (fuel : Nat), l.length < fuel →
      (∀ i, i < l.length → w.mem (p.add i) = l[i]?) →
      iterLoop w (p.add l.length) fuel p = some (l.map some) := by
  induction l with
  | nil =>
    intro p fuel hf _
    obtain ⟨f, rfl⟩ : ∃ f, fuel = f + 1 := ⟨fuel - 1, by simp at hf; omega⟩
    simp [iterLoop, Ptr.add]
  | cons x xs ih =>
    intro p fuel hf hm
    obtain ⟨f, rfl⟩ : ∃ f, fuel = f + 1 := ⟨fuel - 1, by omega⟩
    have hne : p ≠ p.add (xs.length + 1) := Ptr.add_ne_self p _ (by omega)
    have h0 : w.mem p = some x := by
      have := hm 0 (by simp)
      simpa [Ptr.add_zero] using this
    have hrec : iterLoop w ((p.add 1).add xs.length) f (p.add 1) = some (xs.map some) := by
      apply ih
      · simp at hf; omega
      · intro i hi
        rw [Ptr.add_add]
        have := hm (i + 1) (by simp; omega)
        simpa [Nat.add_comm] using this
    rw [Ptr.add_add, Nat.add_comm 1] at hrec
    simp only [iterLoop, List.length_cons, if_neg hne, hrec, h0, Option.map_some',
      List.map_cons]

/-! ## Stepping `expand` and `push_back` -/

theorem expand_ok {T σ : Type} (A : Allocator T σ) (c : MyContainer σ) (w w1 : World T)
    (p : Ptr) (a : σ) (h : A.allocate c.alloc w c.new_capacity = (Except.ok p, a, w1)) :
    c.expand A w
      = (Except.ok (),
          { alloc := (A.deallocate a (MyContainer.moveLoop w1 c.data p c.count)
                        c.data c.capacity).1,
            data := p, count := c.count, capacity := c.new_capacity },
          (A.deallocate a (MyContainer.moveLoop w1 c.data p c.count)
              c.data c.capacity).2) := by
  simp only [MyContainer.expand, h]

theorem expand_error {T σ : Type} (A : Allocator T σ) (c : MyContainer σ) (w w1 : World T)
    (e : Exn) (a : σ) (h : A.allocate c.alloc w c.new_capacity = (Except.error e, a, w1)) :
    c.expand A w = (Except.error e, { c with alloc := a }, w1) := by
  simp only [MyContainer.expand, h]

theorem push_back_room {T σ : Type} (A : Allocator T σ) (c : MyContainer σ) (w : World T)
    (v : T) (h : c.count ≠ c.capacity) :
    c.push_back A w v
      = (Except.ok (), { c with count := (c.count + 1) % SIZE_MOD },
          w.construct (c.data.add c.count) v) := by
  simp only [MyContainer.push_back, if_neg h]

theorem push_back_grow {T σ : Type} (A : Allocator T σ) (c : MyContainer σ) (w w1 : World T)
    (v : T) (p : Ptr) (a : σ) (hfull : c.count = c.capacity)
    (h : A.allocate c.alloc w c.new_capacity = (Except.ok p, a, w1)) :
    c.push_back A w v
      = (Except.ok (),
          { alloc := (A.deallocate a (MyContainer.moveLoop w1 c.data p c.count)
                        c.data c.capacity).1,
            data := p, count := (c.count + 1) % SIZE_MOD, capacity := c.new_capacity },
          ((A.deallocate a (MyContainer.moveLoop w1 c.data p c.count)
              c.data c.capacity).2).construct (p.add c.count) v) := by
  simp only [MyContainer.push_back, if_pos hfull, expand_ok A c w w1 p a h]

theorem push_back_fail {T σ : Type} (A : Allocator T σ) (c : MyContainer σ) (w w1 : World T)
    (v : T) (e : Exn) (a : σ) (hfull : c.count = c.capacity)
    (h : A.allocate c.alloc w c.new_capacity = (Except.error e, a, w1)) :
    c.push_back A w v = (Except.error e, { c with alloc := a }, w1) := by
  simp only [MyContainer.push_back, if_pos hfull, expand_error A c w w1 e a h]

/-- Memory after the growth path of `expand`, for an allocator whose
`deallocate` runs the destructor loop and whose new block starts past the
old one or lies in another system block. -/
theorem grow_mem {T : Type} (w1 : World T) (data p : Ptr) (count cap : Nat)
    (hcap : count ≤ cap)
    (hd : data.blk ≠ p.blk ∨ data.off + cap ≤ p.off) (i : Nat) (hi : i < count) :
    (((MyContainer.moveLoop w1 data p count).log (Event.deallocate data cap)).destroyRange
        data cap).mem (p.add i) = w1.mem (data.add i) := by
  rw [destroyRange_mem]
  have hn : ¬ ((p.add i).blk = data.blk ∧ data.off ≤ (p.add i).off
      ∧ (p.add i).off < data.off + cap) := by
    simp only [Ptr.add]; omega
  rw [if_neg hn]
  show (MyContainer.moveLoop w1 data p count).mem (p.add i) = _
  exact moveLoop_dst w1 data p count (by omega) i hi

theorem construct_mem {T : Type} (w : World T) (p q : Ptr) (v : T) :
    (w.construct p v).mem q = if q = p then some v else w.mem q := rfl

/-! ## The default allocator under a run of `push_back` -/

theorem simple_allocate_ok {T : Type} (a : my_alocator) (w : World T) (n : Nat)
    (h : n ≤ 100) :
    my_alocator.allocate a w n
      = (Except.ok ⟨w.nblocks + 1, 0⟩, a,
          { mem := w.mem, nblocks := w.nblocks + 1,
            trace := w.trace ++ [Event.allocate n] ++ [Event.sysNew (w.nblocks + 1) n] }) := by
  have h2 : ¬ n > 100 := by omega
  simp only [my_alocator.allocate, if_neg h2, World.sysNew, World.log]

theorem simple_allocate_error {T : Type} (a : my_alocator) (w : World T) (n : Nat)
    (h : 100 < n) :
    my_alocator.allocate a w n = (Except.error Exn.bad_alloc, a, w.log (Event.allocate n)) := by
  simp only [my_alocator.allocate, gt_iff_lt, if_pos h]

theorem holds_fresh {T : Type} :
    Holds (MyContainer.init (simpleAlloc T)) (World.fresh : World T) [] where
  count_eq := rfl
  count_le := Nat.le_refl _
  cap_pow := by simp [MyContainer.init]
  blk_le := Nat.le_refl _
  elems := by intro i hi; simp at hi

/-- One `push_back` on a default-allocator container holding fewer than 64
values succeeds and appends the value. -/
theorem holds_push {T : Type} (c : MyContainer my_alocator) (w : World T) (l : List T)
    (v : T) (hl : l.length < 64) (H : Holds c w l) :
    (c.push_back (simpleAlloc T) w v).1 = Except.ok () ∧
      Holds (c.push_back (simpleAlloc T) w v).2.1 (c.push_back (simpleAlloc T) w v).2.2
        (l ++ [v]) := by
  obtain ⟨h1, h2, h3, h4, h5⟩ := H
  simp only [List.mem_cons, List.mem_singleton, List.not_mem_nil, or_false] at h3
  by_cases hfull : c.count = c.capacity
  · have hnc : c.new_capacity ≤ 64 ∧ c.count + 1 ≤ c.new_capacity ∧
        c.new_capacity ∈ [0, 1, 2, 4, 8, 16, 32, 64] := by
      simp only [MyContainer.new_capacity, SIZE_MOD, List.mem_cons, List.mem_singleton,
        List.not_mem_nil, or_false]
      split_ifs <;> omega
    obtain ⟨hn1, hn2, hn3⟩ := hnc
    have ha := simple_allocate_ok c.alloc w c.new_capacity (by omega)
    have hp := push_back_grow (simpleAlloc T) c w _ v _ _ hfull ha
    rw [hp]
    refine ⟨rfl, ?_⟩
    have hmod : (c.count + 1) % SIZE_MOD = c.count + 1 :=
      Nat.mod_eq_of_lt (by simp only [SIZE_MOD]; omega)
    refine ⟨?_, ?_, hn3, ?_, ?_⟩
    · show (c.count + 1) % SIZE_MOD = (l ++ [v]).length
      rw [hmod, h1, List.length_append, List.length_singleton]
    · simp only [hmod]; exact hn2
    · show w.nblocks + 1 ≤ _
      simp only [World.construct, World.log, World.store, simpleAlloc,
        my_alocator.deallocate, destroyRange_nblocks, moveLoop_nblocks]
      exact Nat.le_refl _
    · intro i hi
      simp only [List.length_append, List.length_singleton] at hi
      dsimp only
      rw [construct_mem]
      simp only [Ptr.add_inj]
      by_cases hic : i = c.count
      · have hil : i = l.length := by omega
        subst hil
        rw [if_pos hic]
        exact (List.getElem?_concat_length l v).symm
      · rw [if_neg hic]
        have hil : i < l.length := by omega
        rw [List.getElem?_append_left hil, ← h5 i hil]
        exact grow_mem _ c.data ⟨w.nblocks + 1, 0⟩ c.count c.capacity h2
          (Or.inl (by simp only; omega)) i (by omega)
  · rw [push_back_room (simpleAlloc T) c w v hfull]
    refine ⟨rfl, ?_⟩
    have hmod : (c.count + 1) % SIZE_MOD = c.count + 1 :=
      Nat.mod_eq_of_lt (by simp only [SIZE_MOD]; omega)
    refine ⟨?_, ?_, ?_, h4, ?_⟩
    · show (c.count + 1) % SIZE_MOD = (l ++ [v]).length
      rw [hmod, h1, List.length_append, List.length_singleton]
    · simp only [hmod]; omega
    · simpa only [List.mem_cons, List.mem_singleton, List.not_mem_nil, or_false] using h3
    · intro i hi
      simp only [List.length_append, List.length_singleton] at hi
      dsimp only
      rw [construct_mem]
      simp only [Ptr.add_inj]
      by_cases hic : i = c.count
      · have hil : i = l.length := by omega
        subst hil
        rw [if_pos hic]
        exact (List.getElem?_concat_length l v).symm
      · rw [if_neg hic]
        have hil : i < l.length := by omega
        rw [List.getElem?_append_left hil]
        exact h5 i hil

theorem pushAll_cons_ok {T σ : Type} (A : Allocator T σ) (c : MyContainer σ) (w : World T)
    (v : T) (vs : List T) (h : (c.push_back A w v).1 = Except.ok ()) :
    pushAll A c w (v :: vs)
      = pushAll A (c.push_back A w v).2.1 (c.push_back A w v).2.2 vs := by
  simp only [pushAll]
  generalize c.push_back A w v = r at h ⊢
  obtain ⟨r1, r2, r3⟩ := r
  cases r1 with
  | error e => simp at h
  | ok u => rfl

/-- A run of `push_back` calls that keeps the total at 64 values or fewer
succeeds throughout. -/
theorem holds_pushAll {T : Type} (vs : List T) :
    ∀ (c : MyContainer my_alocator) (w : World T) (l : List T),
      l.length + vs.length ≤ 64 → Holds c w l →
      (pushAll (simpleAlloc T) c w vs).1 = Except.ok () ∧
        Holds (pushAll (simpleAlloc T) c w vs).2.1 (pushAll (simpleAlloc T) c w vs).2.2
          (l ++ vs) := by
  induction vs with
  | nil =>
    intro c w l _ H
    simpa [pushAll] using H
  | cons v vs ih =>
    intro c w l hl H
    simp only [List.length_cons] at hl
    obtain ⟨hok, H2⟩ := holds_push c w l v (by omega) H
    have hstep := pushAll_cons_ok (simpleAlloc T) c w v vs hok
    rw [hstep]
    have := ih _ _ (l ++ [v]) (by simp; omega) H2
    simpa using this

/-! ## The destructor -/

theorem countP_destruct_range (p : Ptr) (n : Nat) :
    ((List.range n).map (fun i => Event.destruct (p.add i))).countP Event.isDestruct = n := by
  induction n with
  | zero => rfl
  | succ n ih =>
    simp [List.range_succ, List.countP_append, ih, Event.isDestruct]

theorem dtor_trace {T : Type} (c : MyContainer my_alocator) (w : World T) :
    (c.dtor (simpleAlloc T) w).2.trace
      = w.trace ++ (List.range c.count).map (fun i => Event.destruct (c.data.add i))
          ++ [Event.deallocate c.data c.capacity]
          ++ (List.range c.capacity).map (fun i => Event.destruct (c.data.add i)) := by
  simp only [MyContainer.dtor, MyContainer.clear, simpleAlloc, my_alocator.deallocate,
    destroyRange_trace, World.log]

/-! ## Allocator requests -/

theorem pool_allocate_error {T : Type} [ElemSize T] (ChunkSize : Nat) (a : MyAllocator)
    (w : World T) (n : Nat) (h : ChunkSize < n) :
    MyAllocator.allocate ChunkSize a w n
      = (Except.error Exn.bad_alloc, a, w.log (Event.allocate n)) := by
  simp only [MyAllocator.allocate, gt_iff_lt, if_pos h]

theorem pool_allocate_fst_ok {T : Type} [ElemSize T] (ChunkSize : Nat) (a : MyAllocator)
    (w : World T) (n : Nat) (h : n ≤ ChunkSize) :
    ∃ p, (MyAllocator.allocate ChunkSize a w n).1 = Except.ok p := by
  have h2 : ¬ n > ChunkSize := by omega
  simp only [MyAllocator.allocate, if_neg h2]
  exact ⟨_, rfl⟩

theorem with_alloc_self {σ : Type} (c : MyContainer σ) : { c with alloc := c.alloc } = c := by
  cases c; rfl

theorem pool_allocate_bump {T : Type} [ElemSize T] (ChunkSize : Nat) (a : MyAllocator)
    (w : World T) (n : Nat) (hn : n ≤ ChunkSize)
    (h : a.pool ≠ nullptr ∧ a.current.off + n ≤ a.pool_end.off) :
    MyAllocator.allocate ChunkSize a w n
      = (Except.ok a.current,
          { pool := a.pool, current := a.current.add n, pool_end := a.pool_end },
          { mem := w.mem, nblocks := w.nblocks,
            trace := w.trace ++ [Event.allocate n] }) := by
  have h2 : ¬ n > ChunkSize := by omega
  obtain ⟨hp, hc⟩ := h
  have hcond : ¬ (a.pool = nullptr ∨ (a.current.add n).gt a.pool_end = true) := by
    simp only [Ptr.gt, Ptr.add, decide_eq_true_eq]
    rintro (h | h)
    · exact hp h
    · omega
  simp only [MyAllocator.allocate, if_neg h2, if_neg hcond]
  rfl

theorem pool_allocate_fresh {T : Type} [ElemSize T] (ChunkSize : Nat) (a : MyAllocator)
    (w : World T) (n : Nat) (hn : n ≤ ChunkSize)
    (hneg : ¬ (a.pool ≠ nullptr ∧ a.current.off + n ≤ a.pool_end.off)) :
    MyAllocator.allocate ChunkSize a w n
      = (Except.ok ⟨w.nblocks + 1, 0⟩,
          { pool := ⟨w.nblocks + 1, 0⟩, current := ⟨w.nblocks + 1, n⟩,
            pool_end := ⟨w.nblocks + 1, arenaSlots T ChunkSize⟩ },
          { mem := w.mem, nblocks := w.nblocks + 1,
            trace := w.trace ++ [Event.allocate n]
              ++ [Event.sysNew (w.nblocks + 1) (arenaSlots T ChunkSize)] }) := by
  have h2 : ¬ n > ChunkSize := by omega
  have hcond : a.pool = nullptr ∨ (a.current.add n).gt a.pool_end = true := by
    simp only [Ptr.gt, Ptr.add, decide_eq_true_eq]
    by_cases hp : a.pool = nullptr
    · exact Or.inl hp
    · right
      by_contra hc
      exact hneg ⟨hp, by omega⟩
  simp only [MyAllocator.allocate, if_neg h2, if_pos hcond]
  simp only [MyAllocator.expand_pool, World.sysNew, World.log, Ptr.add, Nat.zero_add]

/-! ## `push_back` after `clear` -/

/-- A `push_back` right after `clear` succeeds on any default-allocator
container, and iteration then yields the pushed value alone. -/
theorem clear_push_iterate {T : Type} (c : MyContainer my_alocator) (w : World T) (v : T)
    (fuel : Nat) :
    ((c.clear w).1.push_back (simpleAlloc T) (c.clear w).2 v).1 = Except.ok () ∧
    ((c.clear w).1.push_back (simpleAlloc T) (c.clear w).2 v).2.1.iterate
        ((c.clear w).1.push_back (simpleAlloc T) (c.clear w).2 v).2.2 (fuel + 2)
      = some [some v] := by
  have hmod : (0 + 1) % SIZE_MOD = 1 := by decide
  by_cases hcap : c.capacity = 0
  · have hfull : (c.clear w).1.count = (c.clear w).1.capacity := hcap.symm
    have hnc : (c.clear w).1.new_capacity = 1 := by
      simp only [MyContainer.new_capacity, MyContainer.clear, hcap, if_pos]
    have ha := simple_allocate_ok (c.clear w).1.alloc (c.clear w).2
      (c.clear w).1.new_capacity (by omega)
    rw [push_back_grow (simpleAlloc T) _ _ _ v _ _ hfull ha]
    refine ⟨rfl, ?_⟩
    simp only [MyContainer.iterate, MyContainer.end_, MyContainer.begin]
    have hc0 : (c.clear w).1.count = 0 := rfl
    simp only [hc0, hmod]
    exact iterLoop_eq _ [v] _ (fuel + 2) (by simp) (by
      intro i hi
      simp only [List.length_singleton, Nat.lt_one_iff] at hi
      subst hi
      simp [construct_mem])
  · have hne : (c.clear w).1.count ≠ (c.clear w).1.capacity := fun h => hcap h.symm
    rw [push_back_room (simpleAlloc T) _ _ v hne]
    refine ⟨rfl, ?_⟩
    simp only [MyContainer.iterate, MyContainer.end_, MyContainer.begin]
    have hc0 : (c.clear w).1.count = 0 := rfl
    simp only [hc0, hmod]
    exact iterLoop_eq _ [v] _ (fuel + 2) (by simp) (by
      intro i hi
      simp only [List.length_singleton, Nat.lt_one_iff] at hi
      subst hi
      simp [construct_mem])

theorem new_capacity_eq {σ : Type} (c : MyContainer σ) (h : 2 * c.capacity < SIZE_MOD) :
    c.new_capacity = (if c.capacity = 0 then 1 else 2 * c.capacity) ∧
    c.capacity + 1 ≤ c.new_capacity := by
  unfold MyContainer.new_capacity
  by_cases h0 : c.capacity = 0
  · rw [if_pos h0, if_pos h0, h0]
    exact ⟨rfl, Nat.le_refl _⟩
  · rw [if_neg h0, if_neg h0, Nat.mod_eq_of_lt h]
    exact ⟨rfl, by omega⟩

/-! ## Reachable states are well formed -/

theorem runOps_induction {T σ : Type} (A : Allocator T σ)
    (P : MyContainer σ × World T → Prop)
    (hstep : ∀ s op, P s → P (applyOp A s op)) (ops : List (Op T)) :
    ∀ s, P s → P (runOps A s ops) := by
  induction ops with
  | nil => intro s hs; exact hs
  | cons op ops ih =>
    intro s hs
    exact ih _ (hstep s op hs)

theorem wellFormed_push {T : Type} (c : MyContainer my_alocator) (w : World T) (v : T)
    (H : WellFormed c w) :
    WellFormed (c.push_back (simpleAlloc T) w v).2.1 (c.push_back (simpleAlloc T) w v).2.2 := by
  obtain ⟨h1, h2, h3⟩ := H
  have h2b := h2
  simp only [List.mem_cons, List.mem_singleton, List.not_mem_nil, or_false] at h2b
  by_cases hfull : c.count = c.capacity
  · by_cases hle : c.new_capacity ≤ 100
    · have hnc : c.count + 1 ≤ c.new_capacity ∧
          c.new_capacity ∈ [0, 1, 2, 4, 8, 16, 32, 64] := by
        simp only [MyContainer.new_capacity, SIZE_MOD, List.mem_cons, List.mem_singleton,
          List.not_mem_nil, or_false] at hle ⊢
        split_ifs at hle ⊢ <;> omega
      have ha := simple_allocate_ok c.alloc w c.new_capacity hle
      rw [push_back_grow (simpleAlloc T) c w _ v _ _ hfull ha]
      refine ⟨?_, hnc.2, ?_⟩
      · show (c.count + 1) % SIZE_MOD ≤ c.new_capacity
        exact Nat.le_trans (Nat.mod_le _ _) hnc.1
      · show w.nblocks + 1 ≤ _
        simp only [World.construct, World.log, World.store, simpleAlloc,
          my_alocator.deallocate, destroyRange_nblocks, moveLoop_nblocks]
        exact Nat.le_refl _
    · have ha := simple_allocate_error c.alloc w c.new_capacity (by omega)
      rw [push_back_fail (simpleAlloc T) c w _ v _ _ hfull ha]
      exact ⟨h1, h2, h3⟩
  · rw [push_back_room (simpleAlloc T) c w v hfull]
    refine ⟨?_, h2, h3⟩
    show (c.count + 1) % SIZE_MOD ≤ c.capacity
    exact Nat.le_trans (Nat.mod_le _ _) (by omega)

/-- Every state reached from a fresh default-allocator container is well
formed; in particular its capacity is at most 64. -/
theorem reached_wellFormed {T : Type} (ops : List (Op T)) :
    WellFormed (reached ops).1 (reached ops).2 := by
  apply runOps_induction (simpleAlloc T) (fun s => WellFormed s.1 s.2)
  · intro s op hs
    cases op with
    | push_back v => exact wellFormed_push s.1 s.2 v hs
    | clear =>
      exact ⟨Nat.zero_le _, hs.cap_pow, by
        show s.1.data.blk ≤ (s.2.destroyRange s.1.data s.1.count).nblocks
        rw [destroyRange_nblocks]; exact hs.blk_le⟩
  · exact ⟨Nat.le_refl _, by simp [MyContainer.init], Nat.le_refl _⟩

theorem wellFormedPool_push {T : Type} [ElemSize T] (ChunkSize : Nat) (hK : 2 * ChunkSize < SIZE_MOD)
    (c : MyContainer MyAllocator) (w : World T) (v : T) (H : WellFormedPool ChunkSize c w) :
    WellFormedPool ChunkSize (c.push_back (poolAlloc T ChunkSize) w v).2.1
      (c.push_back (poolAlloc T ChunkSize) w v).2.2 := by
  obtain ⟨h1, h2, h3, h4, h5⟩ := H
  by_cases hfull : c.count = c.capacity
  · by_cases hle : c.new_capacity ≤ ChunkSize
    · obtain ⟨-, hn2⟩ := new_capacity_eq c (by omega)
      by_cases hb : c.alloc.pool ≠ nullptr
          ∧ c.alloc.current.off + c.new_capacity ≤ c.alloc.pool_end.off
      · have ha := pool_allocate_bump ChunkSize c.alloc w c.new_capacity hle hb
        rw [push_back_grow (poolAlloc T ChunkSize) c w _ v _ _ hfull ha]
        refine ⟨?_, hle, ?_, ?_, ?_⟩
        · show (c.count + 1) % SIZE_MOD ≤ c.new_capacity
          exact Nat.le_trans (Nat.mod_le _ _) (by omega)
        · show c.alloc.current.blk ≤ _
          simp only [World.construct, World.log, World.store, poolAlloc,
            MyAllocator.deallocate, destroyRange_nblocks, moveLoop_nblocks]
          exact h4
        · show c.alloc.current.blk ≤ _
          simp only [World.construct, World.log, World.store, poolAlloc,
            MyAllocator.deallocate, destroyRange_nblocks, moveLoop_nblocks]
          exact h4
        · intro _
          exact Nat.le_refl _
      · have ha := pool_allocate_fresh ChunkSize c.alloc w c.new_capacity hle hb
        rw [push_back_grow (poolAlloc T ChunkSize) c w _ v _ _ hfull ha]
        refine ⟨?_, hle, ?_, ?_, ?_⟩
        · show (c.count + 1) % SIZE_MOD ≤ c.new_capacity
          exact Nat.le_trans (Nat.mod_le _ _) (by omega)
        · show w.nblocks + 1 ≤ _
          simp only [World.construct, World.log, World.store, poolAlloc,
            MyAllocator.deallocate, destroyRange_nblocks, moveLoop_nblocks]
          exact Nat.le_refl _
        · show w.nblocks + 1 ≤ _
          simp only [World.construct, World.log, World.store, poolAlloc,
            MyAllocator.deallocate, destroyRange_nblocks, moveLoop_nblocks]
          exact Nat.le_refl _
        · intro _
          show 0 + c.new_capacity ≤ c.new_capacity
          omega
    · have ha := pool_allocate_error ChunkSize c.alloc w c.new_capacity (by omega)
      rw [push_back_fail (poolAlloc T ChunkSize) c w _ v _ _ hfull ha]
      exact ⟨h1, h2, h3, h4, h5⟩
  · rw [push_back_room (poolAlloc T ChunkSize) c w v hfull]
    refine ⟨?_, h2, h3, h4, h5⟩
    show (c.count + 1) % SIZE_MOD ≤ c.capacity
    exact Nat.le_trans (Nat.mod_le _ _) (by omega)

/-- Every state reached from a fresh pool-backed container is well formed. -/
theorem reachedPool_wellFormed {T : Type} [ElemSize T] (ChunkSize : Nat) (hK : 2 * ChunkSize < SIZE_MOD)
    (ops : List (Op T)) :
    WellFormedPool ChunkSize (reachedPool ChunkSize ops).1 (reachedPool ChunkSize ops).2 := by
  apply runOps_induction (poolAlloc T ChunkSize) (fun s => WellFormedPool ChunkSize s.1 s.2)
  · intro s op hs
    cases op with
    | push_back v => exact wellFormedPool_push ChunkSize hK s.1 s.2 v hs
    | clear =>
      exact ⟨Nat.zero_le _, hs.cap_le, by
        show s.1.data.blk ≤ (s.2.destroyRange s.1.data s.1.count).nblocks
        rw [destroyRange_nblocks]; exact hs.blk_le, by
        show s.1.alloc.current.blk ≤ (s.2.destroyRange s.1.data s.1.count).nblocks
        rw [destroyRange_nblocks]; exact hs.cur_le, hs.below⟩
  · exact ⟨Nat.le_refl _, Nat.zero_le _, Nat.le_refl _, Nat.le_refl _, fun _ => Nat.zero_le _⟩

/-! ## Growth -/

/-- The growth path of `push_back`, for an allocator whose `deallocate` runs
the destructor loop, whose `allocate` leaves the stored elements alone, and
whose new block starts past the old one or lies in another system block. -/
theorem push_back_grow_spec {T σ : Type} (A : Allocator T σ)
    (hdeal : ∀ a w p n, (A.deallocate a w p n).2
      = (w.log (Event.deallocate p n)).destroyRange p n)
    (c : MyContainer σ) (w w1 : World T) (v : T) (p : Ptr) (a : σ)
    (hfull : c.count = c.capacity)
    (h : A.allocate c.alloc w c.new_capacity = (Except.ok p, a, w1))
    (hmem : w1.mem = w.mem)
    (hd : c.data.blk ≠ p.blk ∨ c.data.off + c.capacity ≤ p.off) :
    (c.push_back A w v).1 = Except.ok () ∧
    (c.push_back A w v).2.1.data = p ∧
    (c.push_back A w v).2.1.capacity = c.new_capacity ∧
    (∀ i, i < c.capacity → (c.push_back A w v).2.2.mem (p.add i) = w.mem (c.data.add i)) ∧
    (c.push_back A w v).2.2.mem (p.add c.capacity) = some v := by
  rw [push_back_grow A c w w1 v p a hfull h]
  refine ⟨rfl, rfl, rfl, ?_, ?_⟩
  · intro i hi
    dsimp only
    rw [construct_mem, hdeal]
    have hne : p.add i ≠ p.add c.count := by
      rw [Ne, Ptr.add_inj]; omega
    rw [if_neg hne, ← hmem]
    exact grow_mem w1 c.data p c.count c.capacity (by omega) hd i (by omega)
  · dsimp only
    rw [construct_mem, hfull, if_pos rfl]

/-! ## `reallocate` -/

theorem copyRange_succ {T : Type} (w : World T) (src dst : Ptr) (n : Nat) :
    w.copyRange src dst (n + 1)
      = (w.copyRange src dst n).store (dst.add n) ((w.copyRange src dst n).mem (src.add n)) := by
  simp [World.copyRange, List.range_succ, List.foldl_append]

theorem copyRange_nblocks {T : Type} (w : World T) (src dst : Ptr) (n : Nat) :
    (w.copyRange src dst n).nblocks = w.nblocks := by
  induction n with
  | zero => rfl
  | succ n ih => rw [copyRange_succ]; exact ih

theorem copyRange_trace {T : Type} (w : World T) (src dst : Ptr) (n : Nat) :
    (w.copyRange src dst n).trace = w.trace := by
  induction n with
  | zero => rfl
  | succ n ih => rw [copyRange_succ]; exact ih

theorem store_mem {T : Type} (w : World T) (p q : Ptr) (x : Option T) :
    (w.store p x).mem q = if q = p then x else w.mem q := rfl

/-- Slots outside the destination range are untouched by `std::copy`. -/
theorem copyRange_frame {T : Type} (w : World T) (src dst : Ptr) (n : Nat) (q : Ptr)
    (hd : ¬ (q.blk = dst.blk ∧ dst.off ≤ q.off ∧ q.off < dst.off + n)) :
    (w.copyRange src dst n).mem q = w.mem q := by
  induction n with
  | zero => rfl
  | succ n ih =>
    rw [copyRange_succ, store_mem]
    have h2 : q ≠ dst.add n := by
      intro e; apply hd; rw [e]; simp [Ptr.add]
    rw [if_neg h2]
    exact ih (by omega)

/-- When source and destination lie in different system blocks, each
destination slot ends up holding what its source slot holds. -/
theorem copyRange_dst {T : Type} (w : World T) (src dst : Ptr) (n : Nat)
    (hd : src.blk ≠ dst.blk) (i : Nat) (hi : i < n) :
    (w.copyRange src dst n).mem (dst.add i) = w.mem (src.add i) := by
  induction n with
  | zero => omega
  | succ n ih =>
    rw [copyRange_succ, store_mem]
    by_cases h : i = n
    · subst h
      rw [if_pos rfl]
      apply copyRange_frame
      simp only [Ptr.add]; omega
    · have h2 : dst.add i ≠ dst.add n := by
        rw [Ne, Ptr.add_inj]; exact h
      rw [if_neg h2]
      exact ih (by omega)

theorem reallocate_ok {T : Type} (a : my_alocator) (w : World T) (p : Ptr)
    (old_n new_n : Nat) (h : new_n ≤ 100) :
    my_alocator.reallocate a w p old_n new_n
      = (Except.ok ⟨w.nblocks + 1, 0⟩, a,
          ((({ mem := w.mem, nblocks := w.nblocks + 1,
               trace := w.trace ++ [Event.allocate new_n]
                 ++ [Event.sysNew (w.nblocks + 1) new_n] } : World T).copyRange p
              ⟨w.nblocks + 1, 0⟩ (min old_n new_n)).log
            (Event.deallocate p old_n)).destroyRange p old_n) := by
  have h2 : ¬ new_n > 100 := by omega
  simp only [my_alocator.reallocate, if_neg h2, simple_allocate_ok a w new_n h,
    my_alocator.deallocate]

/-! ## Iteration over raw storage -/

theorem iterate_add_one (p : Ptr) (k : Nat) : (fun it : Ptr => it.add 1)^[k] p = p.add k := by
  induction k with
  | zero => rfl
  | succ k ih => rw [Function.iterate_succ_apply', ih, Ptr.add_add]

/-- With a step budget above `n`, the loop from `p` to `p + n` yields the
contents of the `n` slots in index order. -/
theorem iterLoop_slots {T : Type} (w : World T) (n : Nat) :
    ∀ (p : Ptr) (fuel : Nat), n < fuel →
      iterLoop w (p.add n) fuel p = some ((List.range n).map (fun k => w.mem (p.add k))) := by
  induction n with
  | zero =>
    intro p fuel hf
    obtain ⟨f, rfl⟩ : ∃ f, fuel = f + 1 := ⟨fuel - 1, by omega⟩
    simp [iterLoop, Ptr.add]
  | succ n ih =>
    intro p fuel hf
    obtain ⟨f, rfl⟩ : ∃ f, fuel = f + 1 := ⟨fuel - 1, by omega⟩
    have hne : p ≠ p.add (n + 1) := Ptr.add_ne_self p _ (by omega)
    have hrec := ih (p.add 1) f (by omega)
    rw [Ptr.add_add, Nat.add_comm 1 n] at hrec
    simp only [iterLoop, if_neg hne, hrec, Option.map_some', List.range_succ_eq_map,
      List.map_cons, List.map_map, Ptr.add_zero, Ptr.add_add]
    congr 2
    apply List.map_congr_left
    intro k _
    simp [Nat.add_comm]

/-- With a step budget of `n` or less, the loop from `p` to `p + n` does not
reach its end. -/
theorem iterLoop_short {T : Type} (w : World T) (fuel : Nat) :
    ∀ (p : Ptr) (n : Nat), fuel ≤ n → iterLoop w (p.add n) fuel p = none := by
  induction fuel with
  | zero => intro p n _; rfl
  | succ f ih =>
    intro p n hf
    obtain ⟨m, rfl⟩ : ∃ m, n = m + 1 := ⟨n - 1, by omega⟩
    have hne : p ≠ p.add (m + 1) := Ptr.add_ne_self p _ (by omega)
    have hrec := ih (p.add 1) m (by omega)
    rw [Ptr.add_add, Nat.add_comm 1 m] at hrec
    simp only [iterLoop, if_neg hne, hrec, Option.map_none']

/-! ## System calls of the simple allocator -/

theorem countP_sysDelete_destructs (p : Ptr) (n : Nat) :
    ((List.range n).map (fun i => Event.destruct (p.add i))).countP Event.isSysDelete = 0 := by
  induction n with
  | zero => rfl
  | succ n ih =>
    simp [List.range_succ, List.countP_append, ih, Event.isSysDelete]

theorem simple_deallocate_trace {T : Type} (a : my_alocator) (w : World T) (p : Ptr)
    (n : Nat) :
    (my_alocator.deallocate a w p n).2.trace
      = w.trace ++ [Event.deallocate p n]
          ++ (List.range n).map (fun i => Event.destruct (p.add i)) := by
  simp only [my_alocator.deallocate, destroyRange_trace, World.log]

/-! ## Runs of the pool allocator -/

/-- What `allocate` returns, and the allocator it leaves, depend on the world
only through the number of system blocks handed out so far. -/
theorem pool_allocate_indep {T : Type} [ElemSize T] (ChunkSize : Nat) (a : MyAllocator)
    (w w2 : World T) (n : Nat) (h : w.nblocks = w2.nblocks) :
    (MyAllocator.allocate ChunkSize a w n).1 = (MyAllocator.allocate ChunkSize a w2 n).1 ∧
    (MyAllocator.allocate ChunkSize a w n).2.1 = (MyAllocator.allocate ChunkSize a w2 n).2.1 ∧
    (MyAllocator.allocate ChunkSize a w n).2.2.nblocks
      = (MyAllocator.allocate ChunkSize a w2 n).2.2.nblocks := by
  by_cases hn : n ≤ ChunkSize
  · by_cases hb : a.pool ≠ nullptr ∧ a.current.off + n ≤ a.pool_end.off
    · rw [pool_allocate_bump ChunkSize a w n hn hb, pool_allocate_bump ChunkSize a w2 n hn hb]
      exact ⟨rfl, rfl, h⟩
    · rw [pool_allocate_fresh ChunkSize a w n hn hb,
        pool_allocate_fresh ChunkSize a w2 n hn hb]
      simp only [h, and_self]
  · rw [pool_allocate_error ChunkSize a w n (by omega),
      pool_allocate_error ChunkSize a w2 n (by omega)]
    exact ⟨rfl, rfl, h⟩

theorem stepPool_same {T : Type} [ElemSize T] (ChunkSize : Nat) (s t : PoolRun T) (op : AOp)
    (h : s.Same t) : (stepPool ChunkSize s op).Same (stepPool ChunkSize t op) := by
  obtain ⟨h1, h2, h3⟩ := h
  cases op with
  | allocate n =>
    obtain ⟨e1, e2, e3⟩ := pool_allocate_indep ChunkSize s.alloc s.world t.world n h2
    rw [h1] at e1 e2 e3
    simp only [stepPool]
    rw [h1]
    generalize MyAllocator.allocate ChunkSize t.alloc s.world n = r at e1 e2 e3 ⊢
    generalize MyAllocator.allocate ChunkSize t.alloc t.world n = r2 at e1 e2 e3 ⊢
    obtain ⟨r1, ra, rw⟩ := r
    obtain ⟨q1, qa, qw⟩ := r2
    simp only at e1 e2 e3
    subst e1 e2
    cases r1 with
    | error e => exact ⟨rfl, e3, h3⟩
    | ok p => exact ⟨rfl, e3, by simp only [h3]⟩
  | deallocate p n =>
    refine ⟨h1, ?_, h3⟩
    simp only [stepPool, MyAllocator.deallocate, destroyRange_nblocks, World.log]
    exact h2
  | deallocate_all =>
    simp only [stepPool, h1]
    by_cases hp : t.alloc.pool ≠ nullptr
    · simp only [MyAllocator.deallocate_all, if_pos hp]
      exact ⟨rfl, h2, h3⟩
    · simp only [MyAllocator.deallocate_all, if_neg hp]
      exact ⟨rfl, h2, h3⟩

theorem runPool_same {T : Type} [ElemSize T] (ChunkSize : Nat) (ops : List AOp) :
    ∀ (s t : PoolRun T), s.Same t →
      (runPool ChunkSize s ops).Same (runPool ChunkSize t ops) := by
  induction ops with
  | nil => intro s t h; exact h
  | cons op ops ih =>
    intro s t h
    exact ih _ _ (stepPool_same ChunkSize s t op h)

theorem runPool_append {T : Type} [ElemSize T] (ChunkSize : Nat) (s : PoolRun T) (xs ys : List AOp) :
    runPool ChunkSize s (xs ++ ys) = runPool ChunkSize (runPool ChunkSize s xs) ys := by
  simp only [runPool, List.foldl_append]

theorem stepPool_deallocate_same {T : Type} [ElemSize T] (ChunkSize : Nat) (s : PoolRun T) (p : Ptr)
    (n : Nat) : (stepPool ChunkSize s (AOp.deallocate p n)).Same s := by
  refine ⟨rfl, ?_, rfl⟩
  simp only [stepPool, MyAllocator.deallocate, destroyRange_nblocks, World.log]

theorem arenaSlots_eq (T : Type) [ElemSize T] (ChunkSize : Nat)
    (hrep : ChunkSize * ElemSize.bytes T < SIZE_MOD) : arenaSlots T ChunkSize = ChunkSize := by
  unfold arenaSlots
  rw [Nat.mod_eq_of_lt hrep]
  exact Nat.mul_div_cancel _ ElemSize.pos

theorem valid_allocate {T : Type} [ElemSize T] (ChunkSize : Nat)
    (hrep : ChunkSize * ElemSize.bytes T < SIZE_MOD) (a : MyAllocator) (w : World T)
    (n : Nat) (h : a.Valid ChunkSize) :
    (MyAllocator.allocate ChunkSize a w n).2.1.Valid ChunkSize := by
  by_cases hn : n ≤ ChunkSize
  · by_cases hb : a.pool ≠ nullptr ∧ a.current.off + n ≤ a.pool_end.off
    · rw [pool_allocate_bump ChunkSize a w n hn hb]
      rcases h with ⟨h1, -, -⟩ | ⟨h1, h2, h3, h4, h5⟩
      · exact absurd h1 hb.1
      · right
        refine ⟨h1, h2, h3, ?_, hb.2⟩
        show a.pool.off ≤ a.current.off + n
        omega
    · have hf := pool_allocate_fresh ChunkSize a w n hn hb
      rw [arenaSlots_eq T ChunkSize hrep] at hf
      rw [hf]
      right
      refine ⟨?_, rfl, ?_, Nat.zero_le _, hn⟩
      · intro e
        have := congrArg Ptr.blk e
        simp [nullptr] at this
      · simp [Ptr.add]
  · rw [pool_allocate_error ChunkSize a w n (by omega)]
    exact h

theorem valid_deallocate_all {T : Type} (ChunkSize : Nat) (a : MyAllocator) (w : World T)
    (h : a.Valid ChunkSize) : (MyAllocator.deallocate_all a w).1.Valid ChunkSize := by
  by_cases hp : a.pool ≠ nullptr
  · simp only [MyAllocator.deallocate_all, if_pos hp]
    exact Or.inl ⟨rfl, rfl, rfl⟩
  · simp only [MyAllocator.deallocate_all, if_neg hp]
    exact h

theorem valid_stepPool {T : Type} [ElemSize T] (ChunkSize : Nat)
    (hrep : ChunkSize * ElemSize.bytes T < SIZE_MOD) (s : PoolRun T) (op : AOp)
    (h : s.alloc.Valid ChunkSize) : (stepPool ChunkSize s op).alloc.Valid ChunkSize := by
  cases op with
  | allocate n =>
    have hv := valid_allocate ChunkSize hrep s.alloc s.world n h
    simp only [stepPool]
    generalize MyAllocator.allocate ChunkSize s.alloc s.world n = r at hv ⊢
    obtain ⟨r1, ra, rw⟩ := r
    cases r1 with
    | error e => exact hv
    | ok p => exact hv
  | deallocate p n => exact h
  | deallocate_all => exact valid_deallocate_all ChunkSize s.alloc s.world h

theorem valid_runPool {T : Type} [ElemSize T] (ChunkSize : Nat)
    (hrep : ChunkSize * ElemSize.bytes T < SIZE_MOD) (ops : List AOp) :
    ∀ (s : PoolRun T), s.alloc.Valid ChunkSize →
      (runPool ChunkSize s ops).alloc.Valid ChunkSize := by
  induction ops with
  | nil => intro s h; exact h
  | cons op ops ih =>
    intro s h
    exact ih _ (valid_stepPool ChunkSize hrep s op h)

theorem simple_ceiling (T : Type) : Ceiling (simpleAlloc T) 100 SafeSimple where
  init_safe := Nat.le_refl _
  dealloc := fun _ _ _ _ => rfl
  reject := fun a w n h => simple_allocate_error a w n h
  grant := by
    intro a w n d cap hn hs
    refine ⟨_, _, _, simple_allocate_ok a w n hn, rfl, ?_, ?_, ?_⟩
    · intro e
      have := congrArg Ptr.blk e
      simp [nullptr] at this
    · exact Nat.le_refl _
    · left
      have hs2 : d.blk ≤ w.nblocks := hs
      show d.blk ≠ w.nblocks + 1
      omega

theorem pool_ceiling (T : Type) [ElemSize T] (ChunkSize : Nat) :
    Ceiling (poolAlloc T ChunkSize) ChunkSize SafePool where
  init_safe := ⟨Nat.le_refl _, Nat.le_refl _, fun _ => Nat.le_refl _, fun h => absurd rfl h⟩
  dealloc := fun _ _ _ _ => rfl
  reject := fun a w n h => pool_allocate_error ChunkSize a w n h
  grant := by
    intro a w n d cap hn hs
    obtain ⟨s1, s2, s3, s4⟩ := hs
    by_cases hb : a.pool ≠ nullptr ∧ a.current.off + n ≤ a.pool_end.off
    · refine ⟨_, _, _, pool_allocate_bump ChunkSize a w n hn hb, rfl, ?_, ?_, ?_⟩
      · intro e
        have h1 := s4 hb.1
        have h2 := congrArg Ptr.blk e
        simp only [nullptr] at h2
        omega
      · exact ⟨s2, s2, fun _ => Nat.le_refl _, s4⟩
      · by_cases hbe : d.blk = a.current.blk
        · exact Or.inr (s3 hbe)
        · exact Or.inl hbe
    · refine ⟨_, _, _, pool_allocate_fresh ChunkSize a w n hn hb, rfl, ?_, ?_, ?_⟩
      · intro e
        have := congrArg Ptr.blk e
        simp [nullptr] at this
      · refine ⟨Nat.le_refl _, Nat.le_refl _, fun _ => ?_, fun _ => ?_⟩
        · show 0 + n ≤ n
          omega
        · show 1 ≤ w.nblocks + 1
          omega
      · left
        show d.blk ≠ w.nblocks + 1
        omega

theorem shape_init {T σ : Type} {A : Allocator T σ} {L : Nat}
    {Safe : σ → Nat → Ptr → Nat → Prop} (hC : Ceiling A L Safe) :
    Shape L Safe (MyContainer.init A) (World.fresh : World T) where
  count_le := Nat.le_refl _
  cap_pow := Or.inl rfl
  cap_le := Nat.zero_le _
  null_iff := ⟨fun _ => rfl, fun _ => rfl⟩
  safe := hC.init_safe

/-- One `push_back` from a state in shape: either the container is full and
the growth request exceeds the ceiling, and the call throws and changes
nothing but the trace; or the call succeeds, appends the value, and leaves the
container in shape. -/
theorem shape_push {T σ : Type} {A : Allocator T σ} {L : Nat}
    {Safe : σ → Nat → Ptr → Nat → Prop} (hC : Ceiling A L Safe) (hL : 2 * L < SIZE_MOD)
    (c : MyContainer σ) (w : World T) (v : T) (H : Shape L Safe c w) :
    (c.count = c.capacity ∧ L < c.new_capacity ∧
      c.push_back A w v
        = (Except.error Exn.bad_alloc, c, w.log (Event.allocate c.new_capacity))) ∨
    (¬ (c.count = c.capacity ∧ L < c.new_capacity) ∧
      (c.push_back A w v).1 = Except.ok () ∧
      Shape L Safe (c.push_back A w v).2.1 (c.push_back A w v).2.2 ∧
      (c.push_back A w v).2.1.count = c.count + 1 ∧
      (c.push_back A w v).2.1.capacity
        = (if c.count = c.capacity then c.new_capacity else c.capacity) ∧
      (∀ i, i < c.count →
        (c.push_back A w v).2.2.mem ((c.push_back A w v).2.1.data.add i)
          = w.mem (c.data.add i)) ∧
      (c.push_back A w v).2.2.mem ((c.push_back A w v).2.1.data.add c.count) = some v) := by
  obtain ⟨h1, h2, h3, h4, h5⟩ := H
  have hrep : 2 * c.capacity < SIZE_MOD := by omega
  obtain ⟨hn1, hn2⟩ := new_capacity_eq c hrep
  have hmod : (c.count + 1) % SIZE_MOD = c.count + 1 :=
    Nat.mod_eq_of_lt (by simp only [SIZE_MOD] at hL ⊢; omega)
  by_cases hfull : c.count = c.capacity
  · by_cases hle : c.new_capacity ≤ L
    · right
      obtain ⟨p, a2, w2, ha, hmem, hp, hsafe, hdisj⟩ :=
        hC.grant c.alloc w c.new_capacity c.data c.capacity hle h5
      have hdeal : ∀ (a : σ) (w : World T) (p : Ptr) (n : Nat), (A.deallocate a w p n).2
          = (w.log (Event.deallocate p n)).destroyRange p n := by
        intro a w p n
        rw [hC.dealloc]
      obtain ⟨g1, g2, g3, g4, g5⟩ :=
        push_back_grow_spec A hdeal c w w2 v p a2 hfull ha hmem hdisj
      have hpb := push_back_grow A c w w2 v p a2 hfull ha
      have hcount : (c.push_back A w v).2.1.count = c.count + 1 := by
        rw [hpb]; exact hmod
      have halloc : (c.push_back A w v).2.1.alloc = a2 := by
        rw [hpb]
        show (A.deallocate a2 _ c.data c.capacity).1 = a2
        rw [hC.dealloc]
      have hnb : (c.push_back A w v).2.2.nblocks = w2.nblocks := by
        rw [hpb]
        show ((A.deallocate a2 _ c.data c.capacity).2.construct _ v).nblocks = _
        rw [hC.dealloc]
        simp only [World.construct, World.log, World.store, destroyRange_nblocks,
          moveLoop_nblocks]
      refine ⟨fun h => by omega, g1, ⟨?_, ?_, ?_, ?_, ?_⟩, hcount, ?_, ?_, ?_⟩
      · rw [hcount, g3]; omega
      · rw [g3, hn1]
        rcases h2 with h0 | ⟨j, hj⟩
        · exact Or.inr ⟨0, by rw [if_pos h0]; rfl⟩
        · refine Or.inr ⟨j + 1, ?_⟩
          have hne : c.capacity ≠ 0 := by
            rw [hj]; exact Nat.pos_iff_ne_zero.mp (Nat.pow_pos (by decide))
          rw [if_neg hne, hj, Nat.pow_succ, Nat.mul_comm]
      · rw [g3]; exact hle
      · rw [g2, g3]
        constructor
        · intro e; exact absurd e hp
        · intro e; omega
      · rw [halloc, hnb, g2, g3]; exact hsafe
      · rw [g3, if_pos hfull]
      · intro i hi
        rw [g2]
        exact g4 i (by omega)
      · rw [g2, hfull]
        exact g5
    · left
      have ha := hC.reject c.alloc w c.new_capacity (by omega)
      rw [push_back_fail A c w _ v _ _ hfull ha, with_alloc_self]
      exact ⟨hfull, by omega, rfl⟩
  · right
    rw [push_back_room A c w v hfull]
    refine ⟨fun h => hfull h.1, rfl, ⟨?_, h2, h3, h4, h5⟩, hmod, ?_, ?_, ?_⟩
    · show (c.count + 1) % SIZE_MOD ≤ c.capacity
      rw [hmod]; omega
    · show c.capacity = _
      rw [if_neg hfull]
    · intro i hi
      show (w.construct (c.data.add c.count) v).mem (c.data.add i) = _
      rw [construct_mem]
      have hne : c.data.add i ≠ c.data.add c.count := by
        rw [Ne, Ptr.add_inj]; omega
      rw [if_neg hne]
    · show (w.construct (c.data.add c.count) v).mem (c.data.add c.count) = _
      rw [construct_mem, if_pos rfl]

theorem shape_log {T σ : Type} {L : Nat} {Safe : σ → Nat → Ptr → Nat → Prop}
    (c : MyContainer σ) (w : World T) (e : Event) (H : Shape L Safe c w) :
    Shape L Safe c (w.log e) :=
  ⟨H.count_le, H.cap_pow, H.cap_le, H.null_iff, H.safe⟩

theorem shape_applyOp {T σ : Type} {A : Allocator T σ} {L : Nat}
    {Safe : σ → Nat → Ptr → Nat → Prop} (hC : Ceiling A L Safe) (hL : 2 * L < SIZE_MOD)
    (s : MyContainer σ × World T) (op : Op T) (H : Shape L Safe s.1 s.2) :
    Shape L Safe (applyOp A s op).1 (applyOp A s op).2 := by
  cases op with
  | push_back v =>
    rcases shape_push hC hL s.1 s.2 v H with ⟨-, -, h⟩ | ⟨-, -, h, -⟩
    · show Shape L Safe (s.1.push_back A s.2 v).2.1 (s.1.push_back A s.2 v).2.2
      rw [h]
      exact shape_log s.1 s.2 _ H
    · exact h
  | clear =>
    refine ⟨Nat.zero_le _, H.cap_pow, H.cap_le, H.null_iff, ?_⟩
    show Safe s.1.alloc (s.2.destroyRange s.1.data s.1.count).nblocks s.1.data s.1.capacity
    rw [destroyRange_nblocks]
    exact H.safe

theorem shape_runOps {T σ : Type} {A : Allocator T σ} {L : Nat}
    {Safe : σ → Nat → Ptr → Nat → Prop} (hC : Ceiling A L Safe) (hL : 2 * L < SIZE_MOD)
    (ops : List (Op T)) :
    Shape L Safe (runOps A (MyContainer.init A, World.fresh) ops).1
      (runOps A (MyContainer.init A, World.fresh) ops).2 :=
  runOps_induction A (fun s => Shape L Safe s.1 s.2)
    (fun s op hs => shape_applyOp hC hL s op hs) ops _ (shape_init hC)

/-! ## Runs of `push_back` over an allocator with a ceiling -/

theorem pow2_le_of_lt_double (j k : Nat) (h : 2 ^ j < 2 * 2 ^ k) : 2 ^ j ≤ 2 ^ k := by
  have h2 : 2 ^ j < 2 ^ (k + 1) := by rw [Nat.pow_succ]; omega
  have h3 : j < k + 1 := (Nat.pow_lt_pow_iff_right (by decide)).mp h2
  exact (Nat.pow_le_pow_iff_right (by decide)).mpr (by omega)

theorem pushAll_cons_error {T σ : Type} (A : Allocator T σ) (c : MyContainer σ)
    (w : World T) (v : T) (vs : List T) (e : Exn)
    (h : (c.push_back A w v).1 = Except.error e) :
    pushAll A c w (v :: vs) = c.push_back A w v := by
  simp only [pushAll]
  generalize c.push_back A w v = r at h ⊢
  obtain ⟨r1, r2, r3⟩ := r
  cases r1 with
  | error e2 => rfl
  | ok u => simp at h

theorem run_init {T σ : Type} {A : Allocator T σ} {L : Nat}
    {Safe : σ → Nat → Ptr → Nat → Prop} (hC : Ceiling A L Safe) :
    Run L Safe (MyContainer.init A) (World.fresh : World T) [] where
  shape := shape_init hC
  count_eq := rfl
  tight := Or.inr ⟨rfl, rfl⟩
  elems := by intro i hi; simp at hi

/-- One `push_back` in a push-only run: it throws and changes nothing but the
trace, or it succeeds and the run goes on with one more value. -/
theorem run_push {T σ : Type} {A : Allocator T σ} {L : Nat}
    {Safe : σ → Nat → Ptr → Nat → Prop} (hC : Ceiling A L Safe) (hL : 2 * L < SIZE_MOD)
    (c : MyContainer σ) (w : World T) (l : List T) (v : T) (H : Run L Safe c w l) :
    (c.count = c.capacity ∧ L < c.new_capacity ∧
      c.push_back A w v
        = (Except.error Exn.bad_alloc, c, w.log (Event.allocate c.new_capacity))) ∨
    (¬ (c.count = c.capacity ∧ L < c.new_capacity) ∧
      (c.push_back A w v).1 = Except.ok () ∧
      Run L Safe (c.push_back A w v).2.1 (c.push_back A w v).2.2 (l ++ [v])) := by
  obtain ⟨hs, hc, ht, he⟩ := H
  rcases shape_push hC hL c w v hs with h | ⟨h1, h2, h3, h4, h5, h6, h7⟩
  · exact Or.inl h
  · right
    refine ⟨h1, h2, h3, ?_, ?_, ?_⟩
    · rw [h4, hc, List.length_append, List.length_singleton]
    · left
      rw [h5, List.length_append, List.length_singleton]
      have hrep : 2 * c.capacity < SIZE_MOD := by have := hs.cap_le; omega
      obtain ⟨hn1, -⟩ := new_capacity_eq c hrep
      have hle := hs.count_le
      by_cases hfull : c.count = c.capacity
      · rw [if_pos hfull, hn1]
        split_ifs <;> omega
      · rw [if_neg hfull]
        omega
    · intro i hi
      simp only [List.length_append, List.length_singleton] at hi
      by_cases hil : i < l.length
      · rw [List.getElem?_append_left hil, ← he i hil]
        exact h6 i (by omega)
      · have hie : i = l.length := by omega
        subst hie
        rw [List.getElem?_concat_length, ← hc]
        exact h7

/-- A run whose every `push_back` succeeded is in the state that holds the
pushed values. -/
theorem run_pushAll_ok {T σ : Type} {A : Allocator T σ} {L : Nat}
    {Safe : σ → Nat → Ptr → Nat → Prop} (hC : Ceiling A L Safe) (hL : 2 * L < SIZE_MOD)
    (vs : List T) :
    ∀ (c : MyContainer σ) (w : World T) (l : List T), Run L Safe c w l →
      (pushAll A c w vs).1 = Except.ok () →
      Run L Safe (pushAll A c w vs).2.1 (pushAll A c w vs).2.2 (l ++ vs) := by
  induction vs with
  | nil =>
    intro c w l H _
    simpa [pushAll] using H
  | cons v vs ih =>
    intro c w l H hok
    rcases run_push hC hL c w l v H with ⟨-, -, h⟩ | ⟨-, h2, h3⟩
    · have he : (c.push_back A w v).1 = Except.error Exn.bad_alloc := by rw [h]
      rw [pushAll_cons_error A c w v vs _ he, he] at hok
      simp at hok
    · rw [pushAll_cons_ok A c w v vs h2] at hok ⊢
      have := ih _ _ (l ++ [v]) h3 hok
      simpa using this

/-- After a non-empty run of successful `push_back` calls the capacity is the
least power of two that is at least the number of values pushed. -/
theorem ceiling_capacity {T σ : Type} {A : Allocator T σ} {L : Nat}
    {Safe : σ → Nat → Ptr → Nat → Prop} (hC : Ceiling A L Safe) (hL : 2 * L < SIZE_MOD)
    (vs : List T) (hne : 1 ≤ vs.length)
    (hok : (pushAll A (MyContainer.init A) World.fresh vs).1 = Except.ok ()) :
    ∃ j, (pushAll A (MyContainer.init A) World.fresh vs).2.1.capacity = 2 ^ j ∧
      vs.length ≤ 2 ^ j ∧ ∀ m, vs.length ≤ 2 ^ m → 2 ^ j ≤ 2 ^ m := by
  have H := run_pushAll_ok hC hL vs _ _ [] (run_init hC) hok
  rw [List.nil_append] at H
  obtain ⟨hs, hc, ht, -⟩ := H
  have hcl := hs.count_le
  rcases hs.cap_pow with h | ⟨j, hj⟩
  · omega
  · refine ⟨j, hj, by omega, ?_⟩
    intro m hm
    apply pow2_le_of_lt_double
    omega

set_option maxRecDepth 100000

/-! ## C1: a run of `push_back` calls on the default container -/

/-- C1 (amended): for every sequence of at most 64 values, pushing them in
turn into a freshly constructed default-allocator `MyContainer` succeeds,
`size()` then equals the number of values pushed, and iterating from
`begin()` to `end()` yields exactly the pushed values in push order. -/
theorem C1_push_back_sequence {T : Type} (vs : List T) (h : vs.length ≤ 64) :
    (pushAll (simpleAlloc T) (MyContainer.init (simpleAlloc T)) World.fresh vs).1
        = Except.ok () ∧
    (pushAll (simpleAlloc T) (MyContainer.init (simpleAlloc T)) World.fresh vs).2.1.size
        = vs.length ∧
    ∀ fuel, vs.length < fuel →
      (pushAll (simpleAlloc T) (MyContainer.init (simpleAlloc T)) World.fresh vs).2.1.iterate
          (pushAll (simpleAlloc T) (MyContainer.init (simpleAlloc T)) World.fresh vs).2.2 fuel
        = some (vs.map some) := by
  obtain ⟨hok, H⟩ := holds_pushAll vs (MyContainer.init (simpleAlloc T)) World.fresh []
    (by simpa using h) holds_fresh
  rw [List.nil_append] at H
  refine ⟨hok, H.count_eq, ?_⟩
  intro fuel hf
  simp only [MyContainer.iterate, MyContainer.end_, MyContainer.begin, H.count_eq]
  exact iterLoop_eq _ vs _ fuel hf H.elems

/-- C1, witness: three values pushed into a fresh `MyContainer<int>`. -/
theorem C1_push_back_sequence_witness :
    ([0, 1, 2] : List Int).length ≤ 64 ∧
    (pushAll (simpleAlloc Int) (MyContainer.init (simpleAlloc Int)) World.fresh
        [0, 1, 2]).2.1.size = 3 :=
  ⟨by decide, (C1_push_back_sequence ([0, 1, 2] : List Int) (by decide)).2.1⟩

/-- C1, counterexample: the 65th `push_back` of a run on a fresh default
container throws `bad_alloc` (growth asks for 128 > 100 slots); `size()` stays
at 64 and iteration yields only the first 64 values. -/
theorem C1_fails_at_65 :
    (pushAll (simpleAlloc Nat) (MyContainer.init (simpleAlloc Nat)) World.fresh
        (List.range 65)).1 = Except.error Exn.bad_alloc ∧
    (pushAll (simpleAlloc Nat) (MyContainer.init (simpleAlloc Nat)) World.fresh
        (List.range 65)).2.1.size ≠ (List.range 65).length ∧
    (pushAll (simpleAlloc Nat) (MyContainer.init (simpleAlloc Nat)) World.fresh
        (List.range 65)).2.1.iterate
      (pushAll (simpleAlloc Nat) (MyContainer.init (simpleAlloc Nat)) World.fresh
        (List.range 65)).2.2 66 = some ((List.range 64).map some) := by
  refine ⟨rfl, ?_, rfl⟩
  have h : (pushAll (simpleAlloc Nat) (MyContainer.init (simpleAlloc Nat)) World.fresh
        (List.range 65)).2.1.size = 64 := rfl
  rw [h]
  decide

/-! ## C2: ten pushes into a pool-backed container with chunk capacity 10 -/

/-- C2 (amended): pushing 0..9 into a fresh `MyContainer<int>` backed by
`MyAllocator<int, 10>`: the first eight pushes succeed, the ninth throws
`bad_alloc` (growth asks for 16 > 10 slots), two arena chunks have been
acquired by then (the block of 8 does not fit behind cursor 7), and iteration
yields 0 1 2 3 4 5 6 7.  With chunk capacity 31 all ten pushes succeed on a
single chunk and iteration yields 0 1 2 3 4 5 6 7 8 9. -/
theorem C2_pool_scenario :
    (pushAll (poolAlloc Int 10) (MyContainer.init (poolAlloc Int 10)) World.fresh
        [0, 1, 2, 3, 4, 5, 6, 7]).1 = Except.ok () ∧
    (fillDigits (poolAlloc Int 10)).1 = Except.error Exn.bad_alloc ∧
    (fillDigits (poolAlloc Int 10)).2.1.size = 8 ∧
    (fillDigits (poolAlloc Int 10)).2.2.sysNews = 2 ∧
    (fillDigits (poolAlloc Int 10)).2.1.iterate (fillDigits (poolAlloc Int 10)).2.2 9
      = some [some 0, some 1, some 2, some 3, some 4, some 5, some 6, some 7] ∧
    (fillDigits (poolAlloc Int 31)).1 = Except.ok () ∧
    (fillDigits (poolAlloc Int 31)).2.2.sysNews = 1 ∧
    (fillDigits (poolAlloc Int 31)).2.1.iterate (fillDigits (poolAlloc Int 31)).2.2 11
      = some [some 0, some 1, some 2, some 3, some 4, some 5, some 6, some 7, some 8,
          some 9] :=
  ⟨rfl, rfl, rfl, rfl, rfl, rfl, rfl, rfl⟩

/-- C2, counterexample: with chunk capacity 10 the run of ten pushes does not
succeed, and more than one arena chunk is acquired. -/
theorem C2_ten_pushes_fail :
    (fillDigits (poolAlloc Int 10)).1 ≠ Except.ok () ∧
    (fillDigits (poolAlloc Int 10)).2.2.sysNews ≠ 1 := by
  have h1 : (fillDigits (poolAlloc Int 10)).1 = Except.error Exn.bad_alloc := rfl
  have h2 : (fillDigits (poolAlloc Int 10)).2.2.sysNews = 2 := rfl
  rw [h1, h2]
  exact ⟨by simp, by decide⟩

/-! ## C3: the destructor of the container -/

/-- C3 (what the code does instead): the destructor of a default-allocator
container with `count` live elements and capacity `capacity` first destructs
slots `0 .. count-1` (in `clear`), then makes its one `alloc.deallocate` call,
which destructs slots `0 .. capacity-1` once more: `count + capacity`
destructor calls in all, not `count`.  After three pushes (3 live elements,
capacity 4) the destructor makes 7 destructor calls; slot 3, which is raw, is
among them. -/
theorem C3_dtor_destructs {T : Type} (c : MyContainer my_alocator) (w : World T) :
    (c.dtor (simpleAlloc T) w).2.trace
      = w.trace ++ (List.range c.count).map (fun i => Event.destruct (c.data.add i))
          ++ [Event.deallocate c.data c.capacity]
          ++ (List.range c.capacity).map (fun i => Event.destruct (c.data.add i)) ∧
    (c.dtor (simpleAlloc T) w).2.destructs = w.destructs + c.count + c.capacity ∧
    ((pushAll (simpleAlloc Int) (MyContainer.init (simpleAlloc Int)) World.fresh
        [1, 2, 3]).2.1.dtor (simpleAlloc Int)
      (pushAll (simpleAlloc Int) (MyContainer.init (simpleAlloc Int)) World.fresh
        [1, 2, 3]).2.2).2.trace
      = (pushAll (simpleAlloc Int) (MyContainer.init (simpleAlloc Int)) World.fresh
          [1, 2, 3]).2.2.trace
        ++ [Event.destruct ⟨3, 0⟩, Event.destruct ⟨3, 1⟩, Event.destruct ⟨3, 2⟩,
          Event.deallocate ⟨3, 0⟩ 4,
          Event.destruct ⟨3, 0⟩, Event.destruct ⟨3, 1⟩, Event.destruct ⟨3, 2⟩,
          Event.destruct ⟨3, 3⟩] := by
  refine ⟨dtor_trace c w, ?_, rfl⟩
  simp only [World.destructs, dtor_trace, List.countP_append, countP_destruct_range,
    List.countP_cons, List.countP_nil, Event.isDestruct]
  simp

/-! ## C4: constructions against destructions over a container lifetime -/

/-- C4 (what the code does instead): over the lifetime of a default
container that receives a single `push_back`, one element is constructed and
the destructor is invoked twice (once by `clear`, once more by
`alloc.deallocate` in the destructor).  Over a lifetime with a push, a push, a
clear and three pushes, 8 elements are constructed and 15 destructor calls
are made. -/
theorem C4_construct_destruct_mismatch :
    (lifetime [Op.push_back (7 : Int)]).constructs = 1 ∧
    (lifetime [Op.push_back (7 : Int)]).destructs = 2 ∧
    (lifetime [Op.push_back (1 : Int), Op.push_back 2, Op.clear, Op.push_back 3,
        Op.push_back 4, Op.push_back 5]).constructs = 8 ∧
    (lifetime [Op.push_back (1 : Int), Op.push_back 2, Op.clear, Op.push_back 3,
        Op.push_back 4, Op.push_back 5]).destructs = 15 := by
  decide

/-! ## C5: a rejected growth request -/

/-- C5: when a `push_back` on a full container asks the allocator to grow and
the allocator throws `bad_alloc`, the exception reaches the caller, and the
container (allocator state, storage handle, length, capacity), the stored
elements and the system heap are what they were before the call; nothing was
constructed, moved or destructed.  Holds for the default allocator and for
the pool allocator of any chunk capacity. -/
theorem C5_growth_failure_atomic {T : Type} [ElemSize T] (ChunkSize : Nat) (v : T) :
    (∀ (c : MyContainer my_alocator) (w : World T),
      c.count = c.capacity →
      (my_alocator.allocate c.alloc w c.new_capacity).1 = Except.error Exn.bad_alloc →
      (c.push_back (simpleAlloc T) w v).1 = Except.error Exn.bad_alloc ∧
      (c.push_back (simpleAlloc T) w v).2.1 = c ∧
      (c.push_back (simpleAlloc T) w v).2.2.mem = w.mem ∧
      (c.push_back (simpleAlloc T) w v).2.2.nblocks = w.nblocks ∧
      (c.push_back (simpleAlloc T) w v).2.2.trace
        = w.trace ++ [Event.allocate c.new_capacity]) ∧
    (∀ (c : MyContainer MyAllocator) (w : World T),
      c.count = c.capacity →
      (MyAllocator.allocate ChunkSize c.alloc w c.new_capacity).1
        = Except.error Exn.bad_alloc →
      (c.push_back (poolAlloc T ChunkSize) w v).1 = Except.error Exn.bad_alloc ∧
      (c.push_back (poolAlloc T ChunkSize) w v).2.1 = c ∧
      (c.push_back (poolAlloc T ChunkSize) w v).2.2.mem = w.mem ∧
      (c.push_back (poolAlloc T ChunkSize) w v).2.2.nblocks = w.nblocks ∧
      (c.push_back (poolAlloc T ChunkSize) w v).2.2.trace
        = w.trace ++ [Event.allocate c.new_capacity]) := by
  constructor
  · intro c w hfull hrej
    have hn : 100 < c.new_capacity := by
      by_contra hle
      rw [simple_allocate_ok c.alloc w c.new_capacity (by omega)] at hrej
      simp at hrej
    have ha := simple_allocate_error c.alloc w c.new_capacity hn
    rw [push_back_fail (simpleAlloc T) c w _ v _ _ hfull ha]
    exact ⟨rfl, with_alloc_self c, rfl, rfl, rfl⟩
  · intro c w hfull hrej
    have hn : ChunkSize < c.new_capacity := by
      by_contra hle
      obtain ⟨p, hp⟩ := pool_allocate_fst_ok ChunkSize c.alloc w c.new_capacity
        (by omega)
      rw [hp] at hrej
      simp at hrej
    have ha := pool_allocate_error ChunkSize c.alloc w c.new_capacity hn
    rw [push_back_fail (poolAlloc T ChunkSize) c w _ v _ _ hfull ha]
    exact ⟨rfl, with_alloc_self c, rfl, rfl, rfl⟩

/-- C5, witness: the 65th push into a default container and the 9th push
into a container backed by `MyAllocator<int, 10>`. -/
theorem C5_growth_failure_atomic_witness :
    (simpleFull.2.1.count = simpleFull.2.1.capacity ∧
      (simpleFull.2.1.push_back (simpleAlloc Int) simpleFull.2.2 64).2.1 = simpleFull.2.1) ∧
    (poolFull.2.1.count = poolFull.2.1.capacity ∧
      (poolFull.2.1.push_back (poolAlloc Int 10) poolFull.2.2 8).2.1 = poolFull.2.1) :=
  ⟨⟨rfl, ((C5_growth_failure_atomic 10 (64 : Int)).1 simpleFull.2.1 simpleFull.2.2
      rfl rfl).2.1⟩,
   ⟨rfl, ((C5_growth_failure_atomic 10 (8 : Int)).2 poolFull.2.1 poolFull.2.2
      rfl rfl).2.1⟩⟩

/-! ## C6: growth by doubling -/

/-- C7: `clear()` runs the element destructor on slots `0 .. length-1` of the
storage, once each and on nothing else, sets the length to 0, and leaves the
capacity, the storage handle, the allocator and the system heap as they
were; no allocator call is made. -/
theorem C7_clear {T σ : Type} (c : MyContainer σ) (w : World T) (q : Ptr) :
    (c.clear w).1.count = 0 ∧
    (c.clear w).1.capacity = c.capacity ∧
    (c.clear w).1.data = c.data ∧
    (c.clear w).1.alloc = c.alloc ∧
    (c.clear w).2.trace
      = w.trace ++ (List.range c.count).map (fun i => Event.destruct (c.data.add i)) ∧
    ((List.range c.count).map (fun i => Event.destruct (c.data.add i))).Nodup ∧
    (c.clear w).2.nblocks = w.nblocks ∧
    (c.clear w).2.mem q
      = (if q.blk = c.data.blk ∧ c.data.off ≤ q.off ∧ q.off < c.data.off + c.count
          then none else w.mem q) := by
  refine ⟨rfl, rfl, rfl, rfl, destroyRange_trace w c.data c.count, ?_,
    destroyRange_nblocks w c.data c.count, destroyRange_mem w c.data c.count q⟩
  apply List.Nodup.map _ (List.nodup_range c.count)
  intro i j hij
  simp only [Event.destruct.injEq, Ptr.add_inj] at hij
  exact hij

/-! ## C8: `push_back` after `clear` -/

/-- C8: in every state reached from a fresh default-allocator container by
`push_back` and `clear` operations, after `clear()` `size()` is 0 and
`empty()` is true, a following `push_back(v)` succeeds for every `v`, and
iteration (with any step budget of at least 2) then yields exactly `[v]`. -/
theorem C8_clear_then_push {T : Type} (ops : List (Op T)) (v : T) (fuel : Nat) :
    ((reached ops).1.clear (reached ops).2).1.size = 0 ∧
    ((reached ops).1.clear (reached ops).2).1.empty = true ∧
    (((reached ops).1.clear (reached ops).2).1.push_back (simpleAlloc T)
        ((reached ops).1.clear (reached ops).2).2 v).1 = Except.ok () ∧
    (((reached ops).1.clear (reached ops).2).1.push_back (simpleAlloc T)
        ((reached ops).1.clear (reached ops).2).2 v).2.1.iterate
      (((reached ops).1.clear (reached ops).2).1.push_back (simpleAlloc T)
        ((reached ops).1.clear (reached ops).2).2 v).2.2 (fuel + 2) = some [some v] :=
  ⟨rfl, rfl, (clear_push_iterate (reached ops).1 (reached ops).2 v fuel).1,
    (clear_push_iterate (reached ops).1 (reached ops).2 v fuel).2⟩

/-! ## C9: the per-request ceiling of both allocators -/

/-- C9: `MyAllocator::allocate(n)` throws `bad_alloc` exactly when
`n > ChunkSize`, and `my_alocator::allocate(n)` exactly when `n > 100`; a
request of exactly the limit succeeds; a failing request leaves the allocator
(arena, cursor, limit), the stored elements and the system heap unchanged. -/
theorem C9_allocate_ceiling {T : Type} [ElemSize T] (ChunkSize : Nat) (a : MyAllocator)
    (s : my_alocator) (w : World T) (n : Nat) :
    ((MyAllocator.allocate ChunkSize a w n).1 = Except.error Exn.bad_alloc ↔ ChunkSize < n) ∧
    ((my_alocator.allocate s w n).1 = Except.error Exn.bad_alloc ↔ 100 < n) ∧
    (∃ p, (MyAllocator.allocate ChunkSize a w ChunkSize).1 = Except.ok p) ∧
    (∃ p, (my_alocator.allocate s w 100).1 = Except.ok p) ∧
    (ChunkSize < n →
      (MyAllocator.allocate ChunkSize a w n).2.1 = a ∧
      (MyAllocator.allocate ChunkSize a w n).2.2.mem = w.mem ∧
      (MyAllocator.allocate ChunkSize a w n).2.2.nblocks = w.nblocks) ∧
    (100 < n →
      (my_alocator.allocate s w n).2.1 = s ∧
      (my_alocator.allocate s w n).2.2.mem = w.mem ∧
      (my_alocator.allocate s w n).2.2.nblocks = w.nblocks) := by
  refine ⟨⟨?_, ?_⟩, ⟨?_, ?_⟩, ?_, ?_, ?_, ?_⟩
  · intro h
    by_contra hle
    obtain ⟨p, hp⟩ := pool_allocate_fst_ok ChunkSize a w n (by omega)
    rw [hp] at h
    simp at h
  · intro h
    rw [pool_allocate_error ChunkSize a w n h]
  · intro h
    by_contra hle
    rw [simple_allocate_ok s w n (by omega)] at h
    simp at h
  · intro h
    rw [simple_allocate_error s w n h]
  · exact pool_allocate_fst_ok ChunkSize a w ChunkSize (Nat.le_refl _)
  · rw [simple_allocate_ok s w 100 (Nat.le_refl _)]
    exact ⟨_, rfl⟩
  · intro h
    rw [pool_allocate_error ChunkSize a w n h]
    exact ⟨rfl, rfl, rfl⟩
  · intro h
    rw [simple_allocate_error s w n h]
    exact ⟨rfl, rfl, rfl⟩

/-- C9, witness: a request of 11 slots to `MyAllocator<int, 10>` that already
holds an arena, and a request of 101 slots to `my_alocator<int>`. -/
theorem C9_allocate_ceiling_witness :
    (10 < 11 ∧
      (MyAllocator.allocate 10 poolFull.2.1.alloc poolFull.2.2 11).2.1
        = poolFull.2.1.alloc) ∧
    (100 < 101 ∧
      (my_alocator.allocate simpleFull.2.1.alloc simpleFull.2.2 101).2.1
        = simpleFull.2.1.alloc) :=
  ⟨⟨by decide, ((C9_allocate_ceiling 10 poolFull.2.1.alloc simpleFull.2.1.alloc
      poolFull.2.2 11).2.2.2.2.1 (by decide)).1⟩,
   ⟨by decide, ((C9_allocate_ceiling 10 poolFull.2.1.alloc simpleFull.2.1.alloc
      simpleFull.2.2 101).2.2.2.2.2 (by decide)).1⟩⟩

/-! ## C10: the pool allocator as a bump allocator -/

/-- C10 (amended): for `n <= ChunkSize`, `MyAllocator::allocate(n)` hands out
the block at the old cursor, keeps the arena and advances the cursor by `n`
when an arena is held and `cursor + n <= limit`; otherwise, provided
`ChunkSize * sizeof(T)` is representable in `size_t`, it acquires a fresh
arena of exactly `ChunkSize` slots in place of the held one, hands out the
block at offset 0 of it and leaves the cursor at `n`. -/
theorem C10_pool_bump {T : Type} [ElemSize T] (ChunkSize : Nat) (a : MyAllocator)
    (w : World T) (n : Nat) (hn : n ≤ ChunkSize) :
    (a.pool ≠ nullptr ∧ a.current.off + n ≤ a.pool_end.off →
      MyAllocator.allocate ChunkSize a w n
        = (Except.ok a.current,
            { pool := a.pool, current := a.current.add n, pool_end := a.pool_end },
            { mem := w.mem, nblocks := w.nblocks,
              trace := w.trace ++ [Event.allocate n] })) ∧
    (ChunkSize * ElemSize.bytes T < SIZE_MOD →
      ¬ (a.pool ≠ nullptr ∧ a.current.off + n ≤ a.pool_end.off) →
      MyAllocator.allocate ChunkSize a w n
        = (Except.ok ⟨w.nblocks + 1, 0⟩,
            { pool := ⟨w.nblocks + 1, 0⟩, current := ⟨w.nblocks + 1, n⟩,
              pool_end := ⟨w.nblocks + 1, ChunkSize⟩ },
            { mem := w.mem, nblocks := w.nblocks + 1,
              trace := w.trace ++ [Event.allocate n]
                ++ [Event.sysNew (w.nblocks + 1) ChunkSize] })) := by
  refine ⟨pool_allocate_bump ChunkSize a w n hn, ?_⟩
  intro hrep hneg
  have hf := pool_allocate_fresh ChunkSize a w n hn hneg
  rw [arenaSlots_eq T ChunkSize hrep] at hf
  exact hf

/-- C10, witness: the first request served by a fresh `MyAllocator<int, 10>`
opens an arena of 10 slots; the next one is served from the cursor. -/
theorem C10_pool_bump_witness :
    ((1 ≤ 10 ∧ 10 * ElemSize.bytes Int < SIZE_MOD) ∧
      (MyAllocator.allocate 10 MyAllocator.init (World.fresh : World Int) 1).2.1
        = ⟨⟨1, 0⟩, ⟨1, 1⟩, ⟨1, 10⟩⟩) ∧
    (2 ≤ 10 ∧
      (MyAllocator.allocate 10 ⟨⟨1, 0⟩, ⟨1, 1⟩, ⟨1, 10⟩⟩ (World.fresh : World Int) 2).1
        = Except.ok ⟨1, 1⟩) :=
  ⟨⟨⟨by decide, by decide⟩,
      congrArg (fun r => r.2.1) ((C10_pool_bump 10 MyAllocator.init
        (World.fresh : World Int) 1 (by decide)).2 (by decide) (by decide))⟩,
   ⟨by decide, congrArg Prod.fst ((C10_pool_bump 10 ⟨⟨1, 0⟩, ⟨1, 1⟩, ⟨1, 10⟩⟩
      (World.fresh : World Int) 2 (by decide)).1 (by decide))⟩⟩

/-- C10, counterexample: for `MyAllocator<int, 2^62 + 1>` the byte count of a
chunk wraps to 4, so the arena opened by the first `allocate(1)` has 1 slot,
not `ChunkSize` slots: `::operator new` is asked for one slot and `pool_end`
is one slot past `pool`. -/
theorem C10_wrapped_arena :
    1 ≤ wrapChunk ∧
    (MyAllocator.allocate wrapChunk MyAllocator.init (World.fresh : World Int) 1).2.2.trace
      = [Event.allocate 1, Event.sysNew 1 1] ∧
    (MyAllocator.allocate wrapChunk MyAllocator.init (World.fresh : World Int) 1).2.1.pool_end
      = ⟨1, 1⟩ ∧
    (MyAllocator.allocate wrapChunk MyAllocator.init (World.fresh : World Int) 1).2.1.pool_end
      ≠ (MyAllocator.allocate wrapChunk MyAllocator.init
          (World.fresh : World Int) 1).2.1.pool.add wrapChunk := by
  decide

/-! ## C11: `reallocate` of the simple allocator -/

/-- C11: `my_alocator::reallocate(p, old_n, new_n)` throws `bad_alloc` exactly
when `new_n > 100`, and then changes nothing.  Otherwise it returns a fresh
system block of `new_n` slots whose first `min(old_n, new_n)` slots hold what
the first `min(old_n, new_n)` slots of the old block held, in order, and it
runs the destructor on the `old_n` slots of the old block, which hold no live
element afterwards.  The old block is a block that exists (`p.blk` has been
handed out). -/
theorem C11_reallocate {T : Type} (a : my_alocator) (w : World T) (p : Ptr)
    (old_n new_n : Nat) :
    ((my_alocator.reallocate a w p old_n new_n).1 = Except.error Exn.bad_alloc
      ↔ 100 < new_n) ∧
    (100 < new_n → (my_alocator.reallocate a w p old_n new_n).2 = (a, w)) ∧
    (new_n ≤ 100 →
      (my_alocator.reallocate a w p old_n new_n).1 = Except.ok ⟨w.nblocks + 1, 0⟩ ∧
      (my_alocator.reallocate a w p old_n new_n).2.2.trace
        = w.trace ++ [Event.allocate new_n] ++ [Event.sysNew (w.nblocks + 1) new_n]
            ++ [Event.deallocate p old_n]
            ++ (List.range old_n).map (fun i => Event.destruct (p.add i)) ∧
      (∀ i, i < old_n → (my_alocator.reallocate a w p old_n new_n).2.2.mem (p.add i) = none) ∧
      (p.blk ≤ w.nblocks → ∀ i, i < min old_n new_n →
        (my_alocator.reallocate a w p old_n new_n).2.2.mem
            ((⟨w.nblocks + 1, 0⟩ : Ptr).add i) = w.mem (p.add i))) := by
  refine ⟨⟨?_, ?_⟩, ?_, ?_⟩
  · intro h
    by_contra hle
    rw [reallocate_ok a w p old_n new_n (by omega)] at h
    simp at h
  · intro h
    simp only [my_alocator.reallocate, gt_iff_lt, if_pos h]
  · intro h
    simp only [my_alocator.reallocate, gt_iff_lt, if_pos h]
  · intro h
    rw [reallocate_ok a w p old_n new_n h]
    refine ⟨rfl, ?_, ?_, ?_⟩
    · simp only [destroyRange_trace, World.log, copyRange_trace]
    · intro i hi
      dsimp only
      rw [destroyRange_mem]
      have hin : (p.add i).blk = p.blk ∧ p.off ≤ (p.add i).off
          ∧ (p.add i).off < p.off + old_n :=
        ⟨rfl, Nat.le_add_right _ _, Nat.add_lt_add_left hi _⟩
      rw [if_pos hin]
    · intro hblk i hi
      dsimp only
      rw [destroyRange_mem]
      have hout : ¬ ((Ptr.add ⟨w.nblocks + 1, 0⟩ i).blk = p.blk
          ∧ p.off ≤ (Ptr.add ⟨w.nblocks + 1, 0⟩ i).off
          ∧ (Ptr.add ⟨w.nblocks + 1, 0⟩ i).off < p.off + old_n) := by
        rintro ⟨h1, -, -⟩
        have h2 : w.nblocks + 1 = p.blk := h1
        omega
      rw [if_neg hout]
      show (World.copyRange _ p ⟨w.nblocks + 1, 0⟩ (min old_n new_n)).mem _ = _
      rw [copyRange_dst _ p ⟨w.nblocks + 1, 0⟩ (min old_n new_n) (by simp only; omega) i hi]

/-- C11, witness: a block holding 10, 20, 30, 40, 50 reallocated from 5 to 3
slots keeps 10, 20, 30; reallocated from 5 to 7 slots it keeps all five; a
request for 101 slots is refused. -/
theorem C11_reallocate_witness :
    ((3 ≤ 100 ∧ (⟨1, 0⟩ : Ptr).blk ≤ fiveInts.nblocks) ∧
      (my_alocator.reallocate {} fiveInts ⟨1, 0⟩ 5 3).2.2.mem ((⟨2, 0⟩ : Ptr).add 2)
        = some 30) ∧
    ((7 ≤ 100 ∧ (⟨1, 0⟩ : Ptr).blk ≤ fiveInts.nblocks) ∧
      (my_alocator.reallocate {} fiveInts ⟨1, 0⟩ 5 7).2.2.mem ((⟨2, 0⟩ : Ptr).add 4)
        = some 50) ∧
    (100 < 101 ∧ (my_alocator.reallocate {} fiveInts ⟨1, 0⟩ 5 101).2 = ({}, fiveInts)) :=
  ⟨⟨⟨by decide, by decide⟩,
      ((C11_reallocate {} fiveInts ⟨1, 0⟩ 5 3).2.2 (by decide)).2.2.2 (by decide) 2
        (by decide)⟩,
   ⟨⟨by decide, by decide⟩,
      ((C11_reallocate {} fiveInts ⟨1, 0⟩ 5 7).2.2 (by decide)).2.2.2 (by decide) 4
        (by decide)⟩,
   ⟨by decide, (C11_reallocate {} fiveInts ⟨1, 0⟩ 5 101).2.1 (by decide)⟩⟩

/-! ## C12: `deallocate` of the pool allocator recycles nothing -/

/-- C12: `MyAllocator::deallocate(p, n)` leaves `pool`, `current` and
`pool_end` as they were and makes no system call; its events are the `n`
destructor calls.  The next `allocate` therefore returns the block it would
have returned without the `deallocate`, and so does every later one: dropping
a `deallocate` from any sequence of allocator operations changes neither the
blocks returned nor the final allocator state. -/
theorem C12_deallocate_frame {T : Type} [ElemSize T] (ChunkSize : Nat) (a : MyAllocator) (w : World T)
    (p : Ptr) (n m : Nat) (before after : List AOp) :
    (MyAllocator.deallocate a w p n).1 = a ∧
    (MyAllocator.deallocate a w p n).2.nblocks = w.nblocks ∧
    (MyAllocator.deallocate a w p n).2.trace
      = w.trace ++ [Event.deallocate p n]
          ++ (List.range n).map (fun i => Event.destruct (p.add i)) ∧
    (MyAllocator.allocate ChunkSize (MyAllocator.deallocate a w p n).1
        (MyAllocator.deallocate a w p n).2 m).1
      = (MyAllocator.allocate ChunkSize a w m).1 ∧
    (runPool ChunkSize (PoolRun.fresh : PoolRun T)
        (before ++ AOp.deallocate p n :: after)).blocks
      = (runPool ChunkSize (PoolRun.fresh : PoolRun T) (before ++ after)).blocks ∧
    (runPool ChunkSize (PoolRun.fresh : PoolRun T)
        (before ++ AOp.deallocate p n :: after)).alloc
      = (runPool ChunkSize (PoolRun.fresh : PoolRun T) (before ++ after)).alloc := by
  have hnb : (MyAllocator.deallocate a w p n).2.nblocks = w.nblocks := by
    simp only [MyAllocator.deallocate, destroyRange_nblocks, World.log]
  have hrun := runPool_same ChunkSize after _ _
    (stepPool_deallocate_same ChunkSize
      (runPool ChunkSize (PoolRun.fresh : PoolRun T) before) p n)
  refine ⟨rfl, hnb, ?_, ?_, ?_, ?_⟩
  · simp only [MyAllocator.deallocate, destroyRange_trace, World.log]
  · exact (pool_allocate_indep ChunkSize a _ w m hnb).1
  · rw [runPool_append, runPool_append]
    exact hrun.2.2
  · rw [runPool_append, runPool_append]
    exact hrun.1

/-! ## C13: teardown of the pool allocator -/

/-- C13: `deallocate_all` on an allocator that holds an arena passes that
arena to `::operator delete` once and resets `pool`, `current` and `pool_end`
to null; on an allocator that holds none it does nothing.  Hence a second
teardown changes nothing and makes no release, and teardown of a freshly
constructed allocator makes no release. -/
theorem C13_deallocate_all {T : Type} (a : MyAllocator) (w : World T) :
    (a.pool ≠ nullptr →
      (MyAllocator.deallocate_all a w).1 = MyAllocator.init ∧
      (MyAllocator.deallocate_all a w).2.trace = w.trace ++ [Event.sysDelete a.pool.blk] ∧
      (MyAllocator.deallocate_all a w).2.sysDeletes = w.sysDeletes + 1) ∧
    (a.pool = nullptr → MyAllocator.deallocate_all a w = (a, w)) ∧
    MyAllocator.deallocate_all (MyAllocator.deallocate_all a w).1
        (MyAllocator.deallocate_all a w).2 = MyAllocator.deallocate_all a w ∧
    MyAllocator.deallocate_all MyAllocator.init w = (MyAllocator.init, w) := by
  refine ⟨?_, ?_, ?_, rfl⟩
  · intro h
    simp only [MyAllocator.deallocate_all, if_pos h]
    refine ⟨rfl, rfl, ?_⟩
    simp [World.sysDeletes, World.sysDelete, List.countP_append, Event.isSysDelete]
  · intro h
    have h2 : ¬ a.pool ≠ nullptr := fun h3 => h3 h
    simp only [MyAllocator.deallocate_all, if_neg h2]
  · by_cases h : a.pool ≠ nullptr
    · simp only [MyAllocator.deallocate_all, if_pos h]
      rfl
    · simp only [MyAllocator.deallocate_all, if_neg h]

/-- C13, witness: teardown of the allocator of a pool-backed container that
holds an arena, and of an allocator that holds none. -/
theorem C13_deallocate_all_witness :
    (poolFull.2.1.alloc.pool ≠ nullptr ∧
      (MyAllocator.deallocate_all poolFull.2.1.alloc poolFull.2.2).1 = MyAllocator.init) ∧
    (MyAllocator.init.pool = nullptr ∧
      MyAllocator.deallocate_all MyAllocator.init poolFull.2.2
        = (MyAllocator.init, poolFull.2.2)) :=
  ⟨⟨by decide, ((C13_deallocate_all poolFull.2.1.alloc poolFull.2.2).1 (by decide)).1⟩,
   ⟨rfl, (C13_deallocate_all MyAllocator.init poolFull.2.2).2.1 rfl⟩⟩

/-! ## C14: iteration -/

/-- C14: stepping from `begin()` with `operator++` reaches `end()` after
exactly `size()` increments and after no other number of increments; the
loop from `begin()` to `end()`, given a step budget above `size()`, yields the
slot contents `storage[0], ..., storage[size()-1]` in that order, and with a
smaller budget it does not finish.  The loop reads the container and the
memory and returns a value: nothing is modified, and running it again on the
same container gives the same sequence. -/
theorem C14_iteration {T σ : Type} (c : MyContainer σ) (w : World T) (k fuel : Nat) :
    ((fun it : Ptr => it.add 1)^[k] c.begin = c.end_ ↔ k = c.size) ∧
    (c.size < fuel →
      c.iterate w fuel = some ((List.range c.size).map (fun i => w.mem (c.data.add i)))) ∧
    (fuel ≤ c.size → c.iterate w fuel = none) := by
  refine ⟨?_, ?_, ?_⟩
  · rw [iterate_add_one]
    exact Ptr.add_inj c.data k c.count
  · intro h
    exact iterLoop_slots w c.count c.data fuel h
  · intro h
    exact iterLoop_short w fuel c.data c.count h

/-- C14, witness: iterating the container that holds 1, 2, 3. -/
theorem C14_iteration_witness :
    (simpleThree.2.1.size < 4 ∧
      simpleThree.2.1.iterate simpleThree.2.2 4 = some [some 1, some 2, some 3]) ∧
    (2 ≤ simpleThree.2.1.size ∧ simpleThree.2.1.iterate simpleThree.2.2 2 = none) :=
  ⟨⟨by decide, (C14_iteration simpleThree.2.1 simpleThree.2.2 0 4).2.1 (by decide)⟩,
   ⟨by decide, (C14_iteration simpleThree.2.1 simpleThree.2.2 0 2).2.2 (by decide)⟩⟩

/-! ## C15: system calls of the simple allocator -/

/-- C15 (what the code does instead): `my_alocator::deallocate(p, n)` makes no
`::operator delete` call at all; its events are the `n` destructor calls.  A
granted `allocate(n)` does make exactly one `::operator new` call.  So after
`p = allocate(1); deallocate(p, 1)` one system block has been obtained, none
given back, and one more block is outstanding than before. -/
theorem C15_deallocate_never_frees {T : Type} (a : my_alocator) (w : World T) (p : Ptr)
    (n : Nat) :
    (my_alocator.deallocate a w p n).2.trace
      = w.trace ++ [Event.deallocate p n]
          ++ (List.range n).map (fun i => Event.destruct (p.add i)) ∧
    (my_alocator.deallocate a w p n).2.sysDeletes = w.sysDeletes ∧
    (my_alocator.allocate a w (min n 100)).2.2.sysNews = w.sysNews + 1 ∧
    (World.fresh : World Int).outstanding = 0 ∧
    allocThenDeallocate.sysNews = 1 ∧
    allocThenDeallocate.sysDeletes = 0 ∧
    allocThenDeallocate.outstanding = 1 := by
  refine ⟨simple_deallocate_trace a w p n, ?_, ?_, rfl, rfl, rfl, rfl⟩
  · simp only [World.sysDeletes, simple_deallocate_trace, List.countP_append,
      countP_sysDelete_destructs]
    simp [Event.isSysDelete]
  · rw [simple_allocate_ok a w (min n 100) (Nat.min_le_right _ _)]
    simp [World.sysNews, List.countP_append, Event.isSysNew]

/-! ## C16: length never exceeds capacity -/

/-- C16: `length <= capacity` holds for a freshly constructed container and in
every state reached from it by `push_back` (with room, growing, or refused)
and `clear`, and still holds after one more such operation; in all these
states the storage handle is null exactly when the capacity is 0.  Stated for
the default allocator and for the pool allocator of any chunk capacity whose
double is representable in `size_t`. -/
theorem C16_length_le_capacity {T : Type} [ElemSize T] (ChunkSize : Nat)
    (hK : 2 * ChunkSize < SIZE_MOD) (ops : List (Op T)) (op : Op T) :
    ((MyContainer.init (simpleAlloc T)).count ≤ (MyContainer.init (simpleAlloc T)).capacity ∧
      (MyContainer.init (poolAlloc T ChunkSize)).count
        ≤ (MyContainer.init (poolAlloc T ChunkSize)).capacity) ∧
    ((reached ops).1.count ≤ (reached ops).1.capacity ∧
      ((reached ops).1.data = nullptr ↔ (reached ops).1.capacity = 0)) ∧
    ((applyOp (simpleAlloc T) (reached ops) op).1.count
        ≤ (applyOp (simpleAlloc T) (reached ops) op).1.capacity ∧
      ((applyOp (simpleAlloc T) (reached ops) op).1.data = nullptr
        ↔ (applyOp (simpleAlloc T) (reached ops) op).1.capacity = 0)) ∧
    ((reachedPool ChunkSize ops).1.count ≤ (reachedPool ChunkSize ops).1.capacity ∧
      ((reachedPool ChunkSize ops).1.data = nullptr
        ↔ (reachedPool ChunkSize ops).1.capacity = 0)) ∧
    ((applyOp (poolAlloc T ChunkSize) (reachedPool ChunkSize ops) op).1.count
        ≤ (applyOp (poolAlloc T ChunkSize) (reachedPool ChunkSize ops) op).1.capacity ∧
      ((applyOp (poolAlloc T ChunkSize) (reachedPool ChunkSize ops) op).1.data = nullptr
        ↔ (applyOp (poolAlloc T ChunkSize) (reachedPool ChunkSize ops) op).1.capacity
            = 0)) := by
  have hS : 2 * 100 < SIZE_MOD := by decide
  have h1 := shape_runOps (simple_ceiling T) hS ops
  have h2 := shape_applyOp (simple_ceiling T) hS _ op h1
  have h3 := shape_runOps (pool_ceiling T ChunkSize) hK ops
  have h4 := shape_applyOp (pool_ceiling T ChunkSize) hK _ op h3
  exact ⟨⟨Nat.le_refl _, Nat.le_refl _⟩, ⟨h1.count_le, h1.null_iff⟩,
    ⟨h2.count_le, h2.null_iff⟩, ⟨h3.count_le, h3.null_iff⟩, ⟨h4.count_le, h4.null_iff⟩⟩

/-- C16, witness: a container backed by `MyAllocator<int, 10>` after nine
pushes (the ninth refused) and a `clear`, followed by one more push. -/
theorem C16_length_le_capacity_witness :
    2 * 10 < SIZE_MOD ∧
    (applyOp (poolAlloc Int 10)
        (reachedPool 10 [Op.push_back 0, Op.push_back 1, Op.push_back 2, Op.push_back 3,
          Op.push_back 4, Op.push_back 5, Op.push_back 6, Op.push_back 7, Op.push_back 8,
          Op.clear]) (Op.push_back 9)).1.count
      ≤ (applyOp (poolAlloc Int 10)
        (reachedPool 10 [Op.push_back 0, Op.push_back 1, Op.push_back 2, Op.push_back 3,
          Op.push_back 4, Op.push_back 5, Op.push_back 6, Op.push_back 7, Op.push_back 8,
          Op.clear]) (Op.push_back 9)).1.capacity :=
  ⟨by decide,
    (C16_length_le_capacity 10 (by decide)
      [Op.push_back (0 : Int), Op.push_back 1, Op.push_back 2, Op.push_back 3,
        Op.push_back 4, Op.push_back 5, Op.push_back 6, Op.push_back 7, Op.push_back 8,
        Op.clear] (Op.push_back 9)).2.2.2.2.1⟩

/-! ## C17: the cursor stays inside the arena -/

/-- C17 (amended): when `ChunkSize * sizeof(T)` is representable in `size_t`,
the pool allocator invariant (no arena held and `pool`, `current`, `pool_end`
all null, or `pool <= current <= pool_end` inside the held arena with
`pool_end = pool + ChunkSize`) holds for a freshly constructed allocator, is
preserved by `allocate` (granted or refused), `deallocate` and
`deallocate_all` from any state that satisfies it, and so holds after every
sequence of these operations. -/
theorem C17_pool_invariant {T : Type} [ElemSize T] (ChunkSize : Nat)
    (hrep : ChunkSize * ElemSize.bytes T < SIZE_MOD) (ops : List AOp) :
    MyAllocator.init.Valid ChunkSize ∧
    (∀ (s : PoolRun T) (op : AOp), s.alloc.Valid ChunkSize →
      (stepPool ChunkSize s op).alloc.Valid ChunkSize) ∧
    (runPool ChunkSize (PoolRun.fresh : PoolRun T) ops).alloc.Valid ChunkSize :=
  ⟨Or.inl ⟨rfl, rfl, rfl⟩, valid_stepPool ChunkSize hrep,
    valid_runPool ChunkSize hrep ops PoolRun.fresh (Or.inl ⟨rfl, rfl, rfl⟩)⟩

/-- C17, witness: a request for 4 slots on the allocator of a pool-backed
container whose cursor stands at offset 3 of a 10-slot arena. -/
theorem C17_pool_invariant_witness :
    10 * ElemSize.bytes Int < SIZE_MOD ∧
    MyAllocator.Valid 10 poolTwo.2.1.alloc ∧
    MyAllocator.Valid 10
      (stepPool 10 ⟨poolTwo.2.1.alloc, poolTwo.2.2, []⟩ (AOp.allocate 4)).alloc :=
  ⟨by decide, Or.inr ⟨by decide, rfl, rfl, by decide, by decide⟩,
   (C17_pool_invariant 10 (by decide) []).2.1 ⟨poolTwo.2.1.alloc, poolTwo.2.2, []⟩
     (AOp.allocate 4) (Or.inr ⟨by decide, rfl, rfl, by decide, by decide⟩)⟩

/-- C17, counterexample: for `MyAllocator<int, 2^62 + 1>` a chunk is one slot;
after `allocate(1); allocate(5)` the second request has opened a second
one-slot arena and left the cursor at offset 5, past the limit at offset 1,
and the limit is not `ChunkSize` slots past the start. -/
theorem C17_cursor_past_limit :
    (runPool wrapChunk (PoolRun.fresh : PoolRun Int) [AOp.allocate 1, AOp.allocate 5]).alloc
      = ⟨⟨2, 0⟩, ⟨2, 5⟩, ⟨2, 1⟩⟩ ∧
    ¬ MyAllocator.Valid wrapChunk
      (runPool wrapChunk (PoolRun.fresh : PoolRun Int)
        [AOp.allocate 1, AOp.allocate 5]).alloc := by
  have h : (runPool wrapChunk (PoolRun.fresh : PoolRun Int)
      [AOp.allocate 1, AOp.allocate 5]).alloc = ⟨⟨2, 0⟩, ⟨2, 5⟩, ⟨2, 1⟩⟩ := by decide
  refine ⟨h, ?_⟩
  rw [h]
  rintro (⟨h1, -, -⟩ | ⟨-, -, -, -, h5⟩)
  · exact absurd h1 (by decide)
  · exact absurd h5 (by decide)

/-! ## C18: how many pushes a container accepts -/

/-- C19: in every state reached from a fresh container by `push_back` and
`clear` the capacity is 0 or a power of two; and after a run of `N >= 1`
`push_back` calls on a fresh container that all succeeded, the capacity is a
power of two that is at least `N` and at most every power of two that is at
least `N`.  Stated for the default allocator and for the pool allocator of
any chunk capacity whose double is representable in `size_t`. -/
theorem C19_capacity_power_of_two {T : Type} [ElemSize T] (ChunkSize : Nat)
    (hK : 2 * ChunkSize < SIZE_MOD) (ops : List (Op T)) (vs : List T)
    (hN : 1 ≤ vs.length) :
    ((reached ops).1.capacity = 0 ∨ ∃ j, (reached ops).1.capacity = 2 ^ j) ∧
    ((reachedPool ChunkSize ops).1.capacity = 0
      ∨ ∃ j, (reachedPool ChunkSize ops).1.capacity = 2 ^ j) ∧
    ((pushAll (simpleAlloc T) (MyContainer.init (simpleAlloc T)) World.fresh vs).1
        = Except.ok () →
      ∃ j, (pushAll (simpleAlloc T) (MyContainer.init (simpleAlloc T))
              World.fresh vs).2.1.capacity = 2 ^ j ∧
        vs.length ≤ 2 ^ j ∧ ∀ m, vs.length ≤ 2 ^ m → 2 ^ j ≤ 2 ^ m) ∧
    ((pushAll (poolAlloc T ChunkSize) (MyContainer.init (poolAlloc T ChunkSize))
        World.fresh vs).1 = Except.ok () →
      ∃ j, (pushAll (poolAlloc T ChunkSize) (MyContainer.init (poolAlloc T ChunkSize))
              World.fresh vs).2.1.capacity = 2 ^ j ∧
        vs.length ≤ 2 ^ j ∧ ∀ m, vs.length ≤ 2 ^ m → 2 ^ j ≤ 2 ^ m) := by
  have hS : 2 * 100 < SIZE_MOD := by decide
  exact ⟨(shape_runOps (simple_ceiling T) hS ops).cap_pow,
    (shape_runOps (pool_ceiling T ChunkSize) hK ops).cap_pow,
    ceiling_capacity (simple_ceiling T) hS vs hN,
    ceiling_capacity (pool_ceiling T ChunkSize) hK vs hN⟩

/-- C19, witness: five pushes into a fresh default container leave capacity
8, the least power of two that is at least 5. -/
theorem C19_capacity_power_of_two_witness :
    (2 * 10 < SIZE_MOD ∧ 1 ≤ ([1, 2, 3, 4, 5] : List Int).length) ∧
    (pushAll (simpleAlloc Int) (MyContainer.init (simpleAlloc Int)) World.fresh
        [1, 2, 3, 4, 5]).2.1.capacity = 8 ∧
    ∃ j, (pushAll (simpleAlloc Int) (MyContainer.init (simpleAlloc Int)) World.fresh
            [1, 2, 3, 4, 5]).2.1.capacity = 2 ^ j ∧
      ([1, 2, 3, 4, 5] : List Int).length ≤ 2 ^ j ∧
      ∀ m, ([1, 2, 3, 4, 5] : List Int).length ≤ 2 ^ m → 2 ^ j ≤ 2 ^ m :=
  ⟨⟨by decide, by decide⟩, rfl,
    (C19_capacity_power_of_two 10 (by decide) [] ([1, 2, 3, 4, 5] : List Int)
      (by decide)).2.2.1 rfl⟩

/-! ## C20: blocks of the pool allocator -/

end Lab4
